import Mathlib

/-!
# Verification of the KABS quotation pricing engine

A shallow embedding of the SKU-normalization and fuzzy catalog-matching
pricing engine (`services/pricingEngine.ts`): the code normalizer
`normalizeNKBACode`, the garbage filter `isGarbageItem`, the key generator
`generateSmartKeys`, the catalog matcher `findCatalogPrice` /
`getPriceFromItem`, and the orchestrator `calculateProjectPricing`.

Modelling conventions:
* JavaScript numbers are modelled as exact rationals (`Rat`).  `Math.round x`
  is `round x` (floor of `x + 1/2`, which matches JS `Math.round`), and
  `Number(x.toFixed 2)` is `roundCents x = round (x * 100) / 100`; for ties
  the ECMA spec picks the larger candidate, which again matches `round`.
* Strings are processed as `List Char`; `toUpperCase`/`toLowerCase` are
  modelled on ASCII letters (the engine only manipulates ASCII SKU text).
* Regular-expression replaces are implemented as explicit scanners, each one
  documented with the regex it implements.  Scanners that skip a matched
  span use an explicit fuel argument initialised to `length + 1`; every
  recursive call shortens the list by at least one character, so the fuel
  never runs out and the scanner agrees with the unbounded recursion.
* JS object key lookup is modelled with association lists in insertion
  order.  (JS additionally fronts integer-like keys; no claim depends on
  enumeration order of such keys.)
-/

set_option maxRecDepth 16384

namespace KabsPricing

/-- ASCII uppercase letter. -/
def isUpAlpha (c : Char) : Bool := 65 ≤ c.toNat && c.toNat ≤ 90

/-- ASCII digit. -/
def isDig (c : Char) : Bool := 48 ≤ c.toNat && c.toNat ≤ 57

/-- `[0-9A-Z]`. -/
def isAlnumUp (c : Char) : Bool := isUpAlpha c || isDig c

/-- Whitespace as matched by `\s` / trimmed by `String.prototype.trim` (ASCII part). -/
def isWsC (c : Char) : Bool := c == ' ' || c == '\t' || c == '\n' || c == '\r'

/-- `String.prototype.trim` on a character list. -/
def trimL (l : List Char) : List Char :=
  ((l.dropWhile isWsC).reverse.dropWhile isWsC).reverse

/-- `toUpperCase` (ASCII). -/
def upL (l : List Char) : List Char := l.map Char.toUpper

/-- `toLowerCase` (ASCII). -/
def lowL (l : List Char) : List Char := l.map Char.toLower

/-- `l` ends with `s`. -/
def endsL (l s : List Char) : Bool := s.isSuffixOf l

/-- `l` starts with `s`. -/
def startsL (l s : List Char) : Bool := s.isPrefixOf l

/-- drop the last `n` characters. -/
def dropLastN (l : List Char) (n : Nat) : List Char := l.take (l.length - n)

/-- substring containment (`String.prototype.includes`). -/
def containsL (hay needle : List Char) : Bool :=
  decide (needle <:+: hay)

/-- OCR symbol fixes: `$ → B`, `€ → E`, `@ → 0` (three global single-char replaces). -/
def fixSymbols (l : List Char) : List Char :=
  l.map fun c => if c = '$' then 'B' else if c = '€' then 'E' else if c = '@' then '0' else c

/-- `replace(/\s+/g, ' ')`: collapse whitespace runs to a single space.
`prevWs` records whether the previous character was whitespace. -/
def collapseWsGo (prevWs : Bool) : List Char → List Char
  | [] => []
  | c :: rest =>
    if isWsC c then
      if prevWs then collapseWsGo true rest else ' ' :: collapseWsGo true rest
    else c :: collapseWsGo false rest

/-- `code.replace(/\s+/g, ' ').trim()`. -/
def collapseWs (l : List Char) : List Char := trimL (collapseWsGo false l)

/-- `replace(/([A-Z])\s+(\d)/g, '$1$2')`: delete whitespace between a letter and a digit. -/
def deSpaceLDGo : Nat → List Char → List Char
  | 0, l => l
  | _ + 1, [] => []
  | fuel + 1, c :: rest =>
    if isUpAlpha c then
      let ws := rest.takeWhile isWsC
      let r1 := rest.dropWhile isWsC
      match r1 with
      | d :: r2 =>
        if ws ≠ [] && isDig d then c :: deSpaceLDGo fuel (d :: r2)
        else c :: deSpaceLDGo fuel rest
      | [] => c :: deSpaceLDGo fuel rest
    else c :: deSpaceLDGo fuel rest

def deSpaceLD (l : List Char) : List Char := deSpaceLDGo (l.length + 1) l

/-- OCR pattern `BD1015 → BD15`: guarded by `/^[A-Z]+10\d{2}/`, replaces
`([A-Z]+)10(\d{2})` by `$1$2`. -/
def fix10Pat (l : List Char) : List Char :=
  let letters := l.takeWhile isUpAlpha
  match letters, l.dropWhile isUpAlpha with
  | _ :: _, '1' :: '0' :: d1 :: d2 :: rest =>
    if isDig d1 && isDig d2 then letters ++ d1 :: d2 :: rest else l
  | _, _ => l

/-- OCR pattern `B015 → B15`: guarded by `/^[A-Z]+0\d{2}/`, replaces
`([A-Z]+)0(\d{2})` by `$1$2`. -/
def fix0Pat (l : List Char) : List Char :=
  let letters := l.takeWhile isUpAlpha
  match letters, l.dropWhile isUpAlpha with
  | _ :: _, '0' :: d1 :: d2 :: rest =>
    if isDig d1 && isDig d2 then letters ++ d1 :: d2 :: rest else l
  | _, _ => l

/-- `code.replace` of regex `-?2B$` with the empty string. -/
def strip2B (l : List Char) : List Char :=
  if endsL l ['-', '2', 'B'] then dropLastN l 3
  else if endsL l ['2', 'B'] then dropLastN l 2
  else l

/-- `replace(/\([LR]\)$/, '')`. -/
def stripParenLR (l : List Char) : List Char :=
  if endsL l ['(', 'L', ')'] || endsL l ['(', 'R', ')'] then dropLastN l 3 else l

/-- one attempted match of `\s*X\s*\d+\s*DP` starting at the head; returns the
remainder after the match on success. -/
def xdpMatch (l : List Char) : Option (List Char) :=
  match l.dropWhile isWsC with
  | 'X' :: r1 =>
    let r2 := r1.dropWhile isWsC
    let ds := r2.takeWhile isDig
    if ds = [] then none
    else
      match (r2.dropWhile isDig).dropWhile isWsC with
      | 'D' :: 'P' :: r4 => some r4
      | _ => none
  | _ => none

/-- `replace(/\s*X\s*\d+\s*DP/g, '')`. -/
def removeXDpGo : Nat → List Char → List Char
  | 0, l => l
  | _ + 1, [] => []
  | fuel + 1, c :: rest =>
    match xdpMatch (c :: rest) with
    | some r => removeXDpGo fuel r
    | none => c :: removeXDpGo fuel rest

def removeXDp (l : List Char) : List Char := removeXDpGo (l.length + 1) l

/-- `replace(/\d*TD/g, '')`: `buf` holds the digit run read so far (the
candidate `\d*` immediately preceding a `TD`). -/
def removeTdGo (buf : List Char) : List Char → List Char
  | 'T' :: 'D' :: rest => removeTdGo [] rest
  | c :: rest =>
    if isDig c then removeTdGo (buf ++ [c]) rest
    else buf ++ c :: removeTdGo [] rest
  | [] => buf

def removeTd (l : List Char) : List Char := removeTdGo [] l

/-- `replace(/ROT/g, '')`. -/
def removeRot : List Char → List Char
  | 'R' :: 'O' :: 'T' :: rest => removeRot rest
  | c :: rest => c :: removeRot rest
  | [] => []

/-- `replace(/(?<!\d)\./g, '')`: drop each dot not preceded (in the original
string) by a digit. `prev` is the previous character of the original string. -/
def rmDots1 (prev : Option Char) : List Char → List Char
  | [] => []
  | c :: rest =>
    if c = '.' && !(match prev with | some p => isDig p | none => false) then
      rmDots1 (some c) rest
    else c :: rmDots1 (some c) rest

/-- `replace(/\.(?!\d)/g, '')`: drop each dot not followed by a digit. -/
def rmDots2 : List Char → List Char
  | [] => []
  | '.' :: rest =>
    match rest with
    | d :: _ => if isDig d then '.' :: rmDots2 rest else rmDots2 rest
    | [] => []
  | c :: rest => c :: rmDots2 rest

/-- the `(-?[0-9A-Z]+)?$` tail of the construction-type suffix patterns. -/
def consTailOK (l : List Char) : Bool :=
  match l with
  | [] => true
  | '-' :: r => !r.isEmpty && r.all isAlnumUp
  | r => r.all isAlnumUp

/-- `replace(/([0-9]+)AH(-?[0-9A-Z]+)?$/, '$1')` (and the `VH`/`PH` variants):
find the leftmost digit run followed by the two suffix letters and a valid
tail reaching the end of the string; keep everything before it plus the run. -/
def stripCTGo (a b : Char) : Nat → List Char → List Char
  | 0, l => l
  | _ + 1, [] => []
  | fuel + 1, c :: rest =>
    if isDig c then
      let run := (c :: rest).takeWhile isDig
      let after := (c :: rest).dropWhile isDig
      match after with
      | x :: y :: r2 =>
        if x = a && y = b && consTailOK r2 then run
        else run ++ stripCTGo a b fuel after
      | _ => run ++ stripCTGo a b fuel after
    else c :: stripCTGo a b fuel rest

def stripCT (a b : Char) (l : List Char) : List Char := stripCTGo a b (l.length + 1) l

/-- `replace(/HD$/, '')`. -/
def stripHD (l : List Char) : List Char :=
  if endsL l ['H', 'D'] then dropLastN l 2 else l

/-- `if (code.startsWith('DHW')) code = code.replace('DHW', 'DW')`. -/
def fixDHW (l : List Char) : List Char :=
  match l with
  | 'D' :: 'H' :: 'W' :: rest => 'D' :: 'W' :: rest
  | _ => l

/-- `code.replace` of regex `-?[LR]$` with the empty string. -/
def dropTrailLR (l : List Char) : List Char :=
  match l.reverse with
  | x :: '-' :: r => if x = 'L' || x = 'R' then r.reverse else l
  | x :: r => if x = 'L' || x = 'R' then r.reverse else l
  | [] => l

/-- the guarded directional strip: if the code ends in digit+`L`/`R` or digit+`-`+`L`/`R`, apply the regex `-?[LR]$` removal. -/
def stripDirLR (l : List Char) : List Char :=
  let t1 : Bool := match l.reverse with
    | x :: d :: _ => (x = 'L' || x = 'R') && isDig d
    | _ => false
  let t2 : Bool := match l.reverse with
    | x :: '-' :: d :: _ => (x = 'L' || x = 'R') && isDig d
    | _ => false
  if t1 || t2 then dropTrailLR l else l

/-- `code.replace` of regex `-?LH$` with the empty string. -/
def stripLH (l : List Char) : List Char :=
  if endsL l ['-', 'L', 'H'] then dropLastN l 3
  else if endsL l ['L', 'H'] then dropLastN l 2
  else l

/-- `code.replace` of regex `-?RH$` with the empty string. -/
def stripRH (l : List Char) : List Char :=
  if endsL l ['-', 'R', 'H'] then dropLastN l 3
  else if endsL l ['R', 'H'] then dropLastN l 2
  else l

/-- `code.replace` of regex `-?FE[LR]?$` with the empty string. -/
def stripFELR (l : List Char) : List Char :=
  if endsL l ['-', 'F', 'E', 'L'] || endsL l ['-', 'F', 'E', 'R'] then dropLastN l 4
  else if endsL l ['F', 'E', 'L'] || endsL l ['F', 'E', 'R'] then dropLastN l 3
  else if endsL l ['-', 'F', 'E'] then dropLastN l 3
  else if endsL l ['F', 'E'] then dropLastN l 2
  else l

/-- `code.replace` of regex `-?FE$` with the empty string. -/
def stripFE2 (l : List Char) : List Char :=
  if endsL l ['-', 'F', 'E'] then dropLastN l 3
  else if endsL l ['F', 'E'] then dropLastN l 2
  else l

/-- `normalizeNKBACode` on character lists: the exact step sequence of the source. -/
def normalizeCodeL (raw : List Char) : List Char :=
  if raw = [] then []
  else
    let c0 := trimL (upL raw)
    let c1 := fixSymbols c0
    let c2 := collapseWs c1
    let c3 := deSpaceLD c2
    let c4 := fix10Pat c3
    let c5 := fix0Pat c4
    let c6 := strip2B c5
    let c7 := stripParenLR c6
    let c8 := removeXDp c7
    let c9 := removeTd c8
    let c10 := removeRot c9
    let c11 := rmDots2 (rmDots1 none c10)
    let c12 := stripCT 'A' 'H' c11
    let c13 := stripCT 'V' 'H' c12
    let c14 := stripCT 'P' 'H' c13
    let c15 := stripHD c14
    let c16 := fixDHW c15
    let c17 := stripDirLR c16
    let c18 := stripRH (stripLH c17)
    let c19 := stripFE2 (stripFELR c18)
    c19

/-- The Code Normalizer (`normalizeNKBACode` in `pricingEngine.ts`). -/
def normalizeNKBACode (raw : String) : String :=
  ⟨normalizeCodeL raw.data⟩

/-- a purely alphabetic (ASCII uppercase) code that triggers none of the
normalizer's letter-only patterns: no `TD` or `ROT` substring, not starting
with `DHW`, not ending in `HD`, `LH`, `RH`, `FE`, `FEL` or `FER`. -/
def plainAlphaCode (l : List Char) : Bool :=
  l.all isUpAlpha &&
  !containsL l ['T', 'D'] && !containsL l ['R', 'O', 'T'] &&
  !startsL l ['D', 'H', 'W'] &&
  !endsL l ['H', 'D'] && !endsL l ['L', 'H'] && !endsL l ['R', 'H'] &&
  !endsL l ['F', 'E'] && !endsL l ['F', 'E', 'L'] && !endsL l ['F', 'E', 'R']

/-! ## Data model -/

/-- A PDF-extracted modification line (`description` + `price`). -/
structure ModItem where
  description : String
  price : Rat
deriving DecidableEq

/-- `CabinetItem`.  Optional TS fields are modelled with defaults: a missing
`room` is `""` (falsy, like `undefined`), a missing `extractedPrice` is `0`
(the engine only tests `extractedPrice > 0`). `typ` is the TS `type` field. -/
structure CabinetItem where
  id : String
  originalCode : String
  normalizedCode : String
  typ : String
  description : String
  width : Rat
  height : Rat
  depth : Rat
  quantity : Rat
  room : String := ""
  modifications : List ModItem := []
  extractedPrice : Rat := 0
deriving DecidableEq

/-- A manufacturer pricing tier. -/
structure MfgTier where
  id : String
  name : String
  multiplier : Rat
deriving DecidableEq

/-- A manufacturer option.  `sect` is the TS `section` field (a Lean keyword). -/
structure MfgOption where
  id : String
  name : String
  sect : String
  pricingType : String
  price : Rat
  category : String := ""
deriving DecidableEq

/-- A catalog row: tier-name → unit price, in insertion order. -/
abbrev CatalogEntry := List (String × Rat)

/-- The catalog: SKU → row, in insertion order. -/
abbrev Catalog := List (String × CatalogEntry)

/-- `Manufacturer` (the fields the pricing engine reads). -/
structure Manufacturer where
  id : String
  name : String
  basePricingMultiplier : Rat
  tiers : List MfgTier
  options : List MfgOption
  catalog : Catalog
deriving DecidableEq

/-! ## Garbage filter -/

/-- the `badWords` list of `isGarbageItem`. -/
def badWords : List String :=
  ["PAGE ", "OF PAGE", "SUB TOTAL", "SUBTOTAL", "GRAND TOTAL", "ORDER TOTAL",
   "TAX", "SHIPPING", "JOB NAME", "PROJECT:", "QUOTE:", "DATE:", "SIGNATURE",
   "CABINET SPECIFICATIONS", "CONSTRUCTION:", "DOOR STYLE:", "LAYOUT"]

/-- appliance keywords excluded from "looks like a cabinet code". -/
def applianceWords : List String :=
  ["FRIDGE", "DISHWASHER", "RANGE", "OVEN", "MICROWAVE", "SINK", "FAUCET", "PAGE"]

/-- test of regex `PAGE\s+\d+\s+OF\s+\d+` anchored at the head of `l`. -/
def pagePatAt (l : List Char) : Bool :=
  match l with
  | 'P' :: 'A' :: 'G' :: 'E' :: r =>
    let w1 := r.takeWhile isWsC
    let r1 := r.dropWhile isWsC
    let d1 := r1.takeWhile isDig
    let r2 := r1.dropWhile isDig
    let w2 := r2.takeWhile isWsC
    let r3 := r2.dropWhile isWsC
    (match r3 with
     | 'O' :: 'F' :: r4 =>
       let w3 := r4.takeWhile isWsC
       let r5 := r4.dropWhile isWsC
       let d2 := r5.takeWhile isDig
       !w1.isEmpty && !d1.isEmpty && !w2.isEmpty && !w3.isEmpty && !d2.isEmpty
     | _ => false)
  | _ => false

/-- test of regex `PAGE\s+\d+\s+OF\s+\d+` anywhere in `l`. -/
def pagePat : List Char → Bool
  | [] => false
  | c :: rest => pagePatAt (c :: rest) || pagePat rest

/-- `isGarbageItem` from `pricingEngine.ts`. -/
def isGarbageItem (item : CabinetItem) : Bool :=
  let text := upL (item.originalCode ++ " " ++ item.description).data
  if pagePat text then true
  else if badWords.any (fun w => containsL text w.data) then true
  else if item.originalCode.length > 50 && containsL item.originalCode.data [' '] then true
  else if item.originalCode = "KITCHEN" || item.description = "KITCHEN" then true
  else
    let upOrig := upL item.originalCode.data
    let isCabinetCode :=
      (match upOrig with | a :: b :: _ => isAlnumUp a && isAlnumUp b | _ => false)
      && !(applianceWords.any (fun w => containsL upOrig w.data))
    if containsL text "REFRIGERATOR".data && !containsL text "PANEL".data &&
        !containsL text "CABINET".data && !isCabinetCode then true
    else if containsL text "RANGE".data && !containsL text "HOOD".data &&
        !containsL text "CABINET".data && !isCabinetCode then true
    else false

/-! ## Number rendering (JS template interpolation) -/

/-- decimal digits of a natural number, via the kernel-computable `Nat.toDigits`. -/
def natToStr (n : Nat) : String := Nat.repr n

/-- JS `${i}` for integers. -/
def intToStr (i : Int) : String :=
  if i < 0 then "-" ++ natToStr i.natAbs else natToStr i.natAbs

/-- fractional digits of `q ∈ [0,1)`, up to `k` places. -/
def fracDigits : Nat → Rat → List Char
  | 0, _ => []
  | k + 1, q =>
    if q = 0 then []
    else
      let q10 := q * 10
      let d := q10.floor
      Char.ofNat (48 + d.toNat) :: fracDigits k (q10 - d)

/-- JS `${x}` for a number.  Exact for integers and terminating decimals;
for other rationals this prints 17 fractional digits, approximating JS
shortest-round-trip double printing (not exercised by any claim). -/
def qToStr (q : Rat) : String :=
  let sign : String := if q < 0 then "-" else ""
  let a : Rat := |q|
  if a.den = 1 then sign ++ natToStr a.num.natAbs
  else sign ++ natToStr a.floor.natAbs ++ "." ++ ⟨fracDigits 17 (a - a.floor)⟩

/-! ## Key generator (`generateSmartKeys`) -/

/-- `parseInt` on a digit run. -/
def natOfDigits (l : List Char) : Nat :=
  l.foldl (fun a c => a * 10 + (c.toNat - 48)) 0

/-- match of `^[A-Z]+\d+$`: the letter part and the digit part. -/
def splitLetDig (s : String) : Option (String × String) :=
  let ls := s.data.takeWhile isUpAlpha
  let rest := s.data.dropWhile isUpAlpha
  if ls ≠ [] && rest ≠ [] && rest.all isDig then some (⟨ls⟩, ⟨rest⟩) else none

/-- match of `^([A-Z]+)(\d{2,3})$`. -/
def widthMatch (s : String) : Option (String × List Char) :=
  let ls := s.data.takeWhile isUpAlpha
  let rest := s.data.dropWhile isUpAlpha
  if ls ≠ [] && 2 ≤ rest.length && rest.length ≤ 3 && rest.all isDig then
    some (⟨ls⟩, rest)
  else none

/-- `split('-')` on a string. -/
def splitDash (s : String) : List String :=
  (s.data.splitOn '-').map (fun l => (⟨l⟩ : String))

/-- `join('-')`. -/
def joinDash : List String → String
  | [] => ""
  | [x] => x
  | x :: xs => x ++ "-" ++ joinDash xs

/-- key normalization inside `add`: `k.toUpperCase().replace` removing all
whitespace. -/
def keyNorm (k : String) : String :=
  ⟨(upL k.data).filter (fun c => !isWsC c)⟩

/-- the `{ processed, exactKeys, similarKeys }` state threaded through `add`. -/
structure KeyState where
  processed : List String
  exactKeys : List String
  similarKeys : List String
deriving DecidableEq

/-- push an (already normalized) key not yet in `processed`. -/
def pushKey (st : KeyState) (k : String) (isExact : Bool) : KeyState :=
  if st.processed.contains k then st
  else
    { processed := st.processed ++ [k]
      exactKeys := if isExact then st.exactKeys ++ [k] else st.exactKeys
      similarKeys := if isExact then st.similarKeys else st.similarKeys ++ [k] }

/-- the hyphenated-variation block of `add`: for `^[A-Z]+\d+$` keys also push
`Letters-Digits`. -/
def pushHyphenVariant (st : KeyState) (upper : String) (isExact : Bool) : KeyState :=
  match splitLetDig upper with
  | some (ls, ds) => pushKey st (ls ++ "-" ++ ds) isExact
  | none => st

/-- the cosmetic-suffix test of `add`: suffix length ≤ 3, or `BUTT`, or `2B`,
or purely numeric. -/
def cosmeticSuffix (suffix : String) : Bool :=
  suffix.length ≤ 3 || suffix = "BUTT" || suffix = "2B" ||
    (!suffix.data.isEmpty && suffix.data.all isDig)

/-- `add(k, category, allowNeighbors = false)`: pushes the key, its
hyphenated variation, and recursively the de-suffixed base.  The fuel starts
at `k.length + 1`; each recursive call strictly shortens the key, so the fuel
never runs out. -/
def addKeyN : Nat → KeyState → String → Bool → KeyState
  | 0, st, _, _ => st
  | fuel + 1, st, k, isExact =>
    if k = "" then st
    else
      let upper := keyNorm k
      if st.processed.contains upper then st
      else
        let st1 := pushKey st upper isExact
        let st2 := pushHyphenVariant st1 upper isExact
        if containsL upper.data ['-'] then
          match splitDash upper with
          | [] => st2
          | base :: restParts =>
            let suffix := joinDash restParts
            if cosmeticSuffix suffix then addKeyN fuel st2 base isExact else st2
        else st2

/-- neighbor-width generation inside `add` (always `similar`, no further
neighbor expansion). -/
def addNeighbors (st : KeyState) (upper : String) : KeyState :=
  match widthMatch upper with
  | some (pfx, wStr) =>
    if ["SB", "DB", "B", "VSB", "VDB", "W", "BBC", "S", "VB", "V"].contains pfx then
      let w : Int := natOfDigits wStr
      let addN := fun (s : KeyState) (key : String) => addKeyN (key.length + 1) s key false
      let st := addN st (pfx ++ intToStr (w - 3))
      let st := addN st (pfx ++ intToStr (w + 3))
      let st := addN st (pfx ++ intToStr (w - 6))
      let st := addN st (pfx ++ intToStr (w + 6))
      let st := if pfx = "SB" then addN (addN st ("B" ++ intToStr w)) ("VSB" ++ intToStr w) else st
      let st := if pfx = "VSB" then addN (addN st ("SB" ++ intToStr w)) ("VDB" ++ intToStr w) else st
      st
    else st
  | none => st

/-- `add(k, category, allowNeighbors = true)`. -/
def addKeyF : Nat → KeyState → String → Bool → KeyState
  | 0, st, _, _ => st
  | fuel + 1, st, k, isExact =>
    if k = "" then st
    else
      let upper := keyNorm k
      if st.processed.contains upper then st
      else
        let st1 := pushKey st upper isExact
        let st2 := pushHyphenVariant st1 upper isExact
        let st3 :=
          if containsL upper.data ['-'] then
            match splitDash upper with
            | [] => st2
            | base :: restParts =>
              let suffix := joinDash restParts
              if cosmeticSuffix suffix then addKeyF fuel st2 base isExact else st2
          else st2
        addNeighbors st3 upper

/-- `add` with explicit `allowNeighbors` flag. -/
def addKey (st : KeyState) (k : String) (isExact allowNb : Bool) : KeyState :=
  if allowNb then addKeyF (k.length + 1) st k isExact
  else addKeyN (k.length + 1) st k isExact

/-- match of `^([0-9A-Z]+)(\d{2})$`. -/
def complexMatch (s : String) : Option (String × List Char) :=
  let l := s.data
  if 3 ≤ l.length && l.all isAlnumUp &&
      (l.drop (l.length - 2)).all isDig then
    some (⟨l.take (l.length - 2)⟩, l.drop (l.length - 2))
  else none

/-- match of `^([A-Z0-9]+)(\d{2})([A-Z]+)(-\d+)$` (e.g. `VDB27AH-3`):
returns `(prefixPart, twoDigits, trailingDashDigits)`. -/
def middleLetterMatch (s : String) : Option (String × List Char × String) :=
  let l := s.data
  let ds := (l.reverse.takeWhile isDig).reverse
  let beforeDs := l.take (l.length - ds.length)
  match beforeDs.reverse with
  | '-' :: bodyRev =>
    let body := bodyRev.reverse
    if ds = [] || !body.all isAlnumUp then none
    else
      let lrun := (body.reverse.takeWhile isUpAlpha).reverse
      let beforeL := body.take (body.length - lrun.length)
      match beforeL.reverse with
      | d2 :: d1 :: preRev =>
        if lrun ≠ [] && isDig d1 && isDig d2 && preRev ≠ [] then
          some (⟨preRev.reverse⟩, [d1, d2], ⟨'-' :: ds⟩)
        else none
      | _ => none
  | _ => none

/-- match of `^([A-Z]+)(\d+)` (a prefix match, not anchored at the end). -/
def baseMatch (s : String) : Option (String × List Char) :=
  let ls := s.data.takeWhile isUpAlpha
  let rest := s.data.dropWhile isUpAlpha
  let ds := rest.takeWhile isDig
  if ls ≠ [] && ds ≠ [] then some (⟨ls⟩, ds) else none

/-- JS `String.prototype.replace` with a plain-string pattern: replace the
first occurrence of `pat` by `rep`. -/
def replaceFirstL : List Char → List Char → List Char → List Char
  | [], _, _ => []
  | c :: rest, pat, rep =>
    if pat.isPrefixOf (c :: rest) then rep ++ (c :: rest).drop pat.length
    else c :: replaceFirstL rest pat rep

/-- first digit run anywhere in the string (`match(/(\d+)/)?.[0]`). -/
def firstDigitRun : List Char → Option (List Char)
  | [] => none
  | c :: rest =>
    if isDig c then some ((c :: rest).takeWhile isDig)
    else firstDigitRun rest

/-- the standard cabinet widths of strategy 8. -/
def stdWidths : List Nat := [9, 12, 15, 18, 21, 24, 27, 30, 33, 36, 39, 42, 45, 48]

/-- `generateSmartKeys` from `pricingEngine.ts`: the strategies run in source
order over a shared `KeyState`. -/
def generateSmartKeys (item : CabinetItem) : KeyState :=
  let cleanCode := normalizeNKBACode item.originalCode
  let cleanNorm := normalizeNKBACode item.normalizedCode
  let st : KeyState := ⟨[], [], []⟩
  -- STRATEGY 0: first-token fallback
  let st :=
    if containsL item.originalCode.data [' '] then
      let firstToken : String := ⟨upL (trimL (item.originalCode.data.takeWhile (· ≠ ' ')))⟩
      if 2 < firstToken.length then addKey st firstToken true true else st
    else st
  -- STRATEGY 1: explicit clean codes
  let st := addKey st item.originalCode true true
  let st := addKey st cleanCode true true
  let st := if item.normalizedCode ≠ "" then addKey st item.normalizedCode true true else st
  let st := addKey st cleanNorm true true
  -- STRATEGY 1.5: VDB/VBD transposition
  let st :=
    if containsL cleanCode.data "VDB".data then
      addKey st ⟨replaceFirstL cleanCode.data "VDB".data "VBD".data⟩ true true
    else st
  let st :=
    if containsL cleanCode.data "VBD".data then
      addKey st ⟨replaceFirstL cleanCode.data "VBD".data "VDB".data⟩ true true
    else st
  -- STRATEGY 2: complex combinations (trailing height 30–42)
  let st :=
    match complexMatch cleanCode with
    | some (pfx, suf) =>
      let sVal := natOfDigits suf
      if 30 ≤ sVal && sVal ≤ 42 then addKey st pfx true true else st
    | none => st
  -- STRATEGY 3: vanity/wall confusion (WDH prefix)
  let st :=
    if startsL cleanCode.data "W".data || startsL cleanCode.data "WD".data then
      if startsL cleanCode.data "WDH".data then
        let remainder : String := ⟨cleanCode.data.drop 3⟩
        let st := addKey st ("VDB" ++ remainder) false false
        let st := addKey st ("VSB" ++ remainder) false false
        let st := addKey st ("SB" ++ remainder) false false
        let st := addKey st ("DB" ++ remainder) false false
        addKey st ("B" ++ remainder) false false
      else st
    else st
  -- STRATEGY 4a: strip middle letters
  let st :=
    match middleLetterMatch cleanCode with
    | some (pfx, dd, dashTail) => addKey st (pfx ++ (⟨dd⟩ : String) ++ dashTail) false true
    | none => st
  -- STRATEGY 4b: base fallback
  let st :=
    match baseMatch cleanCode with
    | some (pfx, ds) => addKey st (pfx ++ (⟨ds⟩ : String)) false true
    | none => st
  -- STRATEGY 5: remove internal dashes
  let st :=
    if 2 < (splitDash cleanCode).length then
      addKey st ⟨cleanCode.data.filter (· ≠ '-')⟩ true true
    else st
  -- STRATEGY 6: constructed keys from dimensions
  let st :=
    if 0 < item.width then
      let w := qToStr item.width
      if item.typ = "Wall" then
        let hVal := if item.height = 0 then (30 : Rat) else item.height
        let st := addKey st ("W" ++ w ++ qToStr hVal) true false
        if 12 < item.depth then addKey st ("W" ++ w ++ qToStr hVal ++ "-24") true false else st
      else if item.typ = "Base" then
        let st := addKey st ("B" ++ w) true false
        let st := addKey st ("DB" ++ w) true false
        let st := addKey st ("SB" ++ w) true false
        let st := addKey st ("3DB" ++ w) true false
        addKey st ("B" ++ w ++ "D") true false
      else if item.typ = "Tall" then
        let hVal := if item.height = 0 then (84 : Rat) else item.height
        let st := addKey st ("U" ++ w ++ qToStr hVal) true false
        addKey st ("T" ++ w ++ qToStr hVal) true false
      else if item.typ = "Filler" then
        addKey st ("F" ++ w) true false
      else if item.typ = "Panel" then
        let st := addKey st ("PNL" ++ w) true false
        addKey st ("BP" ++ w) true false
      else st
    else st
  -- STRATEGY 7: abbreviation expansion
  let st :=
    if (splitLetDig cleanCode).map Prod.fst == some "S" then
      addKey st ⟨replaceFirstL cleanCode.data "S".data "SB".data⟩ true true
    else st
  let st :=
    if startsL cleanCode.data "WDH".data then
      match firstDigitRun cleanCode.data with
      | some nums =>
        let st := addKey st ("WDC" ++ (⟨nums⟩ : String) ++ "30") false false
        addKey st ("W" ++ (⟨nums⟩ : String) ++ "30") false false
      | none => st
    else st
  let st :=
    if startsL cleanCode.data "PDF".data then
      match firstDigitRun cleanCode.data with
      | some nums =>
        let st := addKey st ("PNL" ++ (⟨nums⟩ : String)) true false
        addKey st ("F" ++ (⟨nums⟩ : String)) true false
      | none => st
    else st
  let st :=
    if startsL cleanCode.data "OUK".data then
      match firstDigitRun cleanCode.data with
      | some nums =>
        let st := addKey st ("ACC" ++ (⟨nums⟩ : String)) false false
        addKey st ("KIT" ++ (⟨nums⟩ : String)) false false
      | none => st
    else st
  let st :=
    if startsL cleanCode.data "CE".data then
      addKey st ⟨replaceFirstL cleanCode.data "CE".data "CM".data⟩ true false
    else st
  let st :=
    if startsL cleanCode.data "TEP".data then
      addKey (addKey st "TEP2484" true false) "TEP96" true false
    else st
  let st :=
    if startsL cleanCode.data "BEP".data then addKey st "BEP24" true false else st
  let st :=
    if startsL cleanCode.data "REP".data then
      addKey (addKey st "REP2496" true false) "REP96" true false
    else st
  let st :=
    if startsL cleanCode.data "BF".data then
      let w : String := ⟨cleanCode.data.drop 2⟩
      addKey (addKey st ("F" ++ w) true false) "F3" false false
    else st
  let st :=
    if startsL cleanCode.data "WF".data then
      let w : String := ⟨cleanCode.data.drop 2⟩
      addKey (addKey st ("F" ++ w) true false) "F3" false false
    else st
  let st :=
    if startsL cleanCode.data "F".data && !startsL cleanCode.data "FE".data then
      let w : String := ⟨replaceFirstL cleanCode.data "F".data [] ⟩
      addKey (addKey st ("BF" ++ w) false false) ("WF" ++ w) false false
    else st
  -- STRATEGY 8: explicit standard-size fallback
  let st :=
    match baseMatch cleanCode with
    | some (pfx, ds) =>
      let numPart := natOfDigits ds
      if numPart < 100 then
        stdWidths.foldl
          (fun s std =>
            if ((numPart : Int) - Int.ofNat std).natAbs ≤ 2 then
              addKey s (pfx ++ natToStr std) false false
            else s)
          st
      else st
    | none => st
  st

/-! ## Catalog matcher -/

/-- `normalizeLookup`: trim, uppercase, en/em dash → hyphen, strip whitespace. -/
def normalizeLookup (sku : String) : String :=
  ⟨((upL (trimL sku.data)).map fun c => if c = '–' || c = '—' then '-' else c).filter
    (fun c => !isWsC c)⟩

/-- JS object lookup on an association list. -/
def lookupA {α : Type} (l : List (String × α)) (k : String) : Option α :=
  (l.find? (fun p => p.1 == k)).map (·.2)

/-- a successful catalog match `{ price, source, matchedSku }`. -/
structure PriceMatch where
  price : Rat
  source : String
  matchedSku : String
deriving DecidableEq

/-- the tier/price-column resolution chain of `getPriceFromItem`: direct tier,
fuzzy tier, single column, generic `price`/`list` column, first column.
Returns the price and the source-label fragment. -/
def tierResolve (entry : CatalogEntry) (tierId : String) : Option (Rat × String) :=
  match lookupA entry tierId with
  | some p => some (p, "Tier")
  | none =>
    match entry.find? (fun kv =>
        containsL (lowL kv.1.data) (lowL tierId.data) ||
        containsL (lowL tierId.data) (lowL kv.1.data)) with
    | some kv => some (kv.2, "Fuzzy '" ++ kv.1 ++ "'")
    | none =>
      if entry.length = 1 then
        match entry with
        | kv :: _ => some (kv.2, "Fallback '" ++ kv.1 ++ "'")
        | [] => none
      else
        match entry.find? (fun kv =>
            containsL (lowL kv.1.data) "price".data ||
            containsL (lowL kv.1.data) "list".data) with
        | some kv => some (kv.2, "Generic '" ++ kv.1 ++ "'")
        | none =>
          match entry with
          | kv :: _ => some (kv.2, "Blind Fallback '" ++ kv.1 ++ "'")
          | [] => none

/-- `getPriceFromItem`. -/
def getPriceFromItem (entry : CatalogEntry) (tierId sku method : String) : Option PriceMatch :=
  (tierResolve entry tierId).map fun pr =>
    { price := pr.1, source := "Catalog (" ++ method ++ " " ++ pr.2 ++ ")", matchedSku := sku }

/-- the neighbor loop of matcher strategy 4 (`W<ww><hh>[suffix]`, height ± 1, ± 2).
The outer `Option` is "a catalog row was found, return the inner result". -/
def neighborLoop (catalog : Catalog) (tierId : String) (pfx sfx : List Char) :
    List Int → Option (Option PriceMatch)
  | [] => none
  | nh :: rest =>
    let candidate : String := ⟨pfx ++ (intToStr nh).data ++ sfx⟩
    match lookupA catalog candidate with
    | some entry =>
      some (getPriceFromItem entry tierId candidate ("Neighbor (Matched " ++ candidate ++ ")"))
    | none =>
      if sfx ≠ [] then
        let simple : String := ⟨pfx ++ (intToStr nh).data⟩
        match lookupA catalog simple with
        | some entry =>
          some (getPriceFromItem entry tierId simple ("Neighbor (Matched " ++ simple ++ ")"))
        | none => neighborLoop catalog tierId pfx sfx rest
      else neighborLoop catalog tierId pfx sfx rest

/-- match of `^(W\d{2})(\d{2})([A-Z]*)$` for the neighbor search. -/
def wallSkuMatch (sku : List Char) : Option (List Char × Nat × List Char) :=
  match sku with
  | 'W' :: d1 :: d2 :: d3 :: d4 :: sfx =>
    if isDig d1 && isDig d2 && isDig d3 && isDig d4 && sfx.all isUpAlpha then
      some (['W', d1, d2], natOfDigits [d3, d4], sfx)
    else none
  | _ => none

/-- matcher strategy 5: progressively shorten from the right while length > 2;
`i` counts down from `length - 1`. -/
def fuzzyStripLoop (catalog : Catalog) (tierId : String) (sku : List Char) :
    Nat → Option (Option PriceMatch)
  | 0 => none
  | 1 => none
  | 2 => none
  | i + 3 =>
    let sub : String := ⟨sku.take (i + 3)⟩
    match lookupA catalog sub with
    | some entry =>
      some (getPriceFromItem entry tierId sub
        ("Similar (Stripped " ++ (⟨sku.drop (i + 3)⟩ : String) ++ ")"))
    | none => fuzzyStripLoop catalog tierId sku (i + 2)

/-- matcher strategy 6: regex core `^([A-Z]{1,4}\d{2,5})`. -/
def coreExtract (sku : List Char) : Option String :=
  let ls := sku.takeWhile isUpAlpha
  let rest := sku.dropWhile isUpAlpha
  let ds := rest.takeWhile isDig
  if ls ≠ [] && ls.length ≤ 4 && 2 ≤ ds.length then some ⟨ls ++ ds.take 5⟩ else none

/-- `findCatalogPrice`: exact, hyphen-insensitive, hyphen-insertion, then
(non-strict only) neighbor search, fuzzy suffix stripping, core extraction.
As in the source, once a catalog row is selected the result of
`getPriceFromItem` is returned even when it is `none`. -/
def findCatalogPrice (rawSku : String) (catalog : Catalog) (tierId : String)
    (strict : Bool) : Option PriceMatch :=
  let cleanSku := normalizeLookup rawSku
  if cleanSku = "" || cleanSku = "UNKNOWN" then none
  else
    match lookupA catalog cleanSku with
    | some entry => getPriceFromItem entry tierId cleanSku "Exact"
    | none =>
    match lookupA catalog (⟨cleanSku.data.filter (· ≠ '-')⟩ : String) with
    | some entry => getPriceFromItem entry tierId cleanSku "Hyphen-Insensitive"
    | none =>
    let ds := (cleanSku.data.reverse.takeWhile isDig).reverse
    let pfx := cleanSku.data.take (cleanSku.data.length - ds.length)
    match (if ds ≠ [] && (match pfx.reverse with | p :: _ => isUpAlpha p | [] => false) then
             lookupA catalog (⟨pfx ++ '-' :: ds⟩ : String)
           else none) with
    | some entry => getPriceFromItem entry tierId cleanSku "Inserted-Hyphen"
    | none =>
      if strict then none
      else
        let afterNeighbor : Option PriceMatch :=
          match fuzzyStripLoop catalog tierId cleanSku.data (cleanSku.data.length - 1) with
          | some r => r
          | none =>
            match coreExtract cleanSku.data with
            | some core =>
              (match lookupA catalog core with
               | some entry => getPriceFromItem entry tierId core "Core Extraction"
               | none => none)
            | none => none
        match wallSkuMatch cleanSku.data with
        | some (p, h, sfx) =>
          (match neighborLoop catalog tierId p sfx
              [(h : Int) + 1, (h : Int) - 1, (h : Int) + 2, (h : Int) - 2] with
           | some r => r
           | none => afterNeighbor)
        | none => afterNeighbor

/-! ## Specs, financials, option phases -/

/-- `ProjectSpecs` (the fields the pricing engine reads).  Missing optional
strings are `none`. -/
structure ProjectSpecs where
  selectedOptions : List (String × Bool) := []
  drawerBox : Option String := none
  hingeType : Option String := none
  woodSpecies : Option String := none
  finishColor : Option String := none
  glaze : Option String := none
  finishOption1 : Option String := none
  finishOption2 : Option String := none
  printedEndOption : Option String := none
  wallDoorOption : Option String := none
  baseDoorOption : Option String := none
  dynamicSelections : List (String × String) := []
  priceGroup : Option String := none
deriving DecidableEq

/-- `ProjectFinancials` (the fields the pricing engine reads). -/
structure ProjectFinancials where
  pricingFactor : Option Rat := none
  globalMargin : Option Rat := none
  categoryMargins : List (String × Rat) := []
  roomFactors : List (String × Rat) := []
deriving DecidableEq

/-- a spec dropdown value is active when truthy and not `None`/`Standard`/`No`. -/
def truthyName (v : String) : Bool :=
  v ≠ "" && v ≠ "None" && v ≠ "Standard" && v ≠ "No"

/-- `getOptionsForSpecs`: checkbox-selected options plus dropdown options whose
name matches one of the selected spec values (case-insensitive). -/
def getOptionsForSpecs (options : List MfgOption) (s : Option ProjectSpecs) : List MfgOption :=
  match s with
  | none => []
  | some sp =>
    let checkboxOptions := options.filter (fun opt => (lookupA sp.selectedOptions opt.id).getD false)
    let names :=
      (([sp.drawerBox, sp.hingeType, sp.woodSpecies, sp.finishColor, sp.glaze,
         sp.finishOption1, sp.finishOption2, sp.printedEndOption,
         sp.wallDoorOption, sp.baseDoorOption].filterMap id)
        ++ sp.dynamicSelections.map Prod.snd).filter truthyName
    let dropdownOptions := options.filter (fun opt =>
      names.any (fun n => lowL n.data = lowL opt.name.data))
    checkboxOptions ++
      dropdownOptions.filter (fun d => !(checkboxOptions.any (fun c => c.id == d.id)))

/-- an applied-option log entry `{ name, price, sourceSection }`. -/
structure AppliedOpt where
  name : String
  price : Rat
  sourceSection : Option String := none
deriving DecidableEq

/-- step 1: accumulate the item's own modification charges. -/
def modPhase (mods : List ModItem) : Rat × List AppliedOpt :=
  mods.foldl
    (fun acc m => (acc.1 + m.price, acc.2 ++ [⟨m.description, m.price, some "PDF Extraction"⟩]))
    (0, [])

/-- the `applies` flag of the fixed-option step (step 2). -/
def optApplies (opt : MfgOption) (typ : String) : Bool :=
  !(opt.sect == "E-Drawer" && typ != "Base") &&
  !(opt.sect == "F-Hinge" && typ == "Filler") &&
  !(opt.sect == "F-Hinge" && typ == "Panel") &&
  !(containsL (lowL opt.name.data) "wall".data && typ != "Wall") &&
  !(containsL (lowL opt.name.data) "base".data && typ != "Base") &&
  !(50 < opt.name.length && opt.price == 0)

/-- one option of step 2 (fixed surcharges and zero-price logging). -/
def fixedStep (typ : String) (acc : Rat × List AppliedOpt) (opt : MfgOption) :
    Rat × List AppliedOpt :=
  if optApplies opt typ then
    let addPrice := if opt.pricingType == "fixed" then opt.price else 0
    if 0 < addPrice || (opt.price == 0 && opt.name.length < 50) then
      (acc.1 + addPrice, acc.2 ++ [⟨opt.name, addPrice, some opt.sect⟩])
    else acc
  else acc

/-- step 2 over all active options. -/
def fixedPhase (opts : List MfgOption) (typ : String) (acc : Rat × List AppliedOpt) :
    Rat × List AppliedOpt :=
  opts.foldl (fixedStep typ) acc

/-- percentage normalization: a stored value > 1 is a whole-number percent. -/
def pctOf (opt : MfgOption) : Rat :=
  if 1 < opt.price then opt.price / 100 else opt.price

/-- JS `Math.round`: floor of `x + 1/2`, via the computable `Rat.floor`
(definitionally `round` on `Rat`, see `jsRound_eq_round`). -/
def jsRound (x : Rat) : Int := (x + 1 / 2).floor

/-- rounding used by `Number(x.toFixed 2)` (see the module docstring).
`mkRat` keeps the definition kernel-computable. -/
def roundCents (x : Rat) : Rat := mkRat (jsRound (x * 100)) 100

/-- the skip test of step 4: name over 50 characters and zero surcharge. -/
def percSkip (basePrice : Rat) (opt : MfgOption) : Bool :=
  50 < opt.name.length && basePrice * pctOf opt == 0

/-- one option of step 4 (percentage surcharges on the resolved base price). -/
def percStep (basePrice : Rat) (acc : Rat × List AppliedOpt) (opt : MfgOption) :
    Rat × List AppliedOpt :=
  if opt.pricingType == "percentage" then
    if percSkip basePrice opt then acc
    else
      (acc.1 + basePrice * pctOf opt,
       acc.2 ++ [⟨opt.name ++ " (" ++ intToStr (jsRound (pctOf opt * 100)) ++ "%)",
                  basePrice * pctOf opt, some opt.sect⟩])
  else acc

/-- step 4 over all active options. -/
def percPhase (opts : List MfgOption) (basePrice : Rat) (acc : Rat × List AppliedOpt) :
    Rat × List AppliedOpt :=
  opts.foldl (percStep basePrice) acc

/-! ## The five matching passes -/

def exactTag (k : String) : String := "Catalog (Exact Match '" ++ k ++ "')"

def similarTag (k : String) : String := "Catalog (Similar Match '" ++ k ++ "')"

/-- passes 2/3: probe each generated key strictly, overwrite the source tag. -/
def tryKeysWith (catalog : Catalog) (tierName : String) (tag : String → String)
    (keys : List String) : Option PriceMatch :=
  keys.findSome? fun k =>
    (findCatalogPrice k catalog tierName true).map fun m => { m with source := tag k }

/-- the five matching passes of the base-price lookup (step 3). -/
def resolveMatch (catalog : Catalog) (tierName : String) (item : CabinetItem) :
    Option PriceMatch :=
  let keys := generateSmartKeys item
  match findCatalogPrice item.originalCode catalog tierName true with
  | some m => some m
  | none =>
  match tryKeysWith catalog tierName exactTag keys.exactKeys with
  | some m => some m
  | none =>
  match tryKeysWith catalog tierName similarTag keys.similarKeys with
  | some m => some m
  | none =>
  match findCatalogPrice item.originalCode catalog tierName false with
  | some m => some m
  | none =>
    let cleanSku := normalizeLookup item.originalCode
    if cleanSku ≠ "" && cleanSku ≠ "UNKNOWN" then
      match catalog.find? (fun kv =>
          let normK := normalizeLookup kv.1
          startsL normK.data cleanSku.data && normK.length ≤ cleanSku.length + 3) with
      | some kv =>
        getPriceFromItem kv.2 tierName kv.1 ("Catalog (Global Prefix Match '" ++ kv.1 ++ "')")
      | none => none
    else none

/-! ## Pricing calculator -/

/-- the output line item. -/
structure PricingLineItem where
  id : String
  originalCode : String
  normalizedCode : String
  typ : String
  description : String
  width : Rat
  height : Rat
  depth : Rat
  quantity : Rat
  room : String
  basePrice : Rat
  optionsPrice : Rat
  tierMultiplier : Rat
  unitCost : Rat
  finalUnitPrice : Rat
  totalPrice : Rat
  pricingFactor : Rat
  margin : Rat
  tierName : String
  source : String
  appliedOptions : List AppliedOpt
deriving DecidableEq

/-- TS object spread `{ ...global, ...room }` on specs, modelled field-wise:
the room value wins when present (for lists, when non-empty). -/
def mergeSpecs (g r : ProjectSpecs) : ProjectSpecs :=
  { selectedOptions := if r.selectedOptions.isEmpty then g.selectedOptions else r.selectedOptions
    drawerBox := r.drawerBox <|> g.drawerBox
    hingeType := r.hingeType <|> g.hingeType
    woodSpecies := r.woodSpecies <|> g.woodSpecies
    finishColor := r.finishColor <|> g.finishColor
    glaze := r.glaze <|> g.glaze
    finishOption1 := r.finishOption1 <|> g.finishOption1
    finishOption2 := r.finishOption2 <|> g.finishOption2
    printedEndOption := r.printedEndOption <|> g.printedEndOption
    wallDoorOption := r.wallDoorOption <|> g.wallDoorOption
    baseDoorOption := r.baseDoorOption <|> g.baseDoorOption
    dynamicSelections := if r.dynamicSelections.isEmpty then g.dynamicSelections
                         else r.dynamicSelections
    priceGroup := r.priceGroup <|> g.priceGroup }

/-- room-context resolution: effective specs, effective tier name, active options. -/
def effContext (mfg : Manufacturer) (globalTierName : String)
    (globalOptions : List MfgOption) (specs : Option ProjectSpecs)
    (roomSpecs : List (String × ProjectSpecs)) (item : CabinetItem) :
    Option ProjectSpecs × String × List MfgOption :=
  match (if item.room ≠ "" then lookupA roomSpecs item.room else none) with
  | some rs =>
    let eff := mergeSpecs (specs.getD {}) rs
    let tn := match eff.priceGroup with
      | some pg => if pg ≠ "" then pg else globalTierName
      | none => globalTierName
    (some eff, tn, getOptionsForSpecs mfg.options (some eff))
  | none => (specs, globalTierName, globalOptions)

/-- effective cost factor (step 7): room override, else
`financials.pricingFactor || manufacturer.basePricingMultiplier || 1`. -/
def factorOf (mfg : Manufacturer) (financials : Option ProjectFinancials)
    (room : String) : Rat :=
  let globalFactor :=
    match financials.bind (·.pricingFactor) with
    | some pf =>
      if pf ≠ 0 then pf
      else if mfg.basePricingMultiplier ≠ 0 then mfg.basePricingMultiplier else 1
    | none => if mfg.basePricingMultiplier ≠ 0 then mfg.basePricingMultiplier else 1
  if room ≠ "" then
    match financials.bind (fun f => lookupA f.roomFactors room) with
    | some rf => if rf ≠ 0 then rf else globalFactor
    | none => globalFactor
  else globalFactor

/-- margin determination (step 9): per-tier-name category override (when
truthy) over `financials.globalMargin || 0`. -/
def marginRawOf (financials : Option ProjectFinancials) (effTierName : String) : Rat :=
  let base := match financials.bind (·.globalMargin) with
    | some m => m
    | none => 0
  match financials with
  | some f =>
    (match lookupA f.categoryMargins (if effTierName = "" then "Standard" else effTierName) with
     | some v => if v ≠ 0 then v else base
     | none => base)
  | none => base

/-- the effective tier name of an item (room override or global). -/
def effTierOf (mfg : Manufacturer) (globalTierName : String)
    (globalOptions : List MfgOption) (specs : Option ProjectSpecs)
    (roomSpecs : List (String × ProjectSpecs)) (item : CabinetItem) : String :=
  (effContext mfg globalTierName globalOptions specs roomSpecs item).2.1

/-- the active option list of an item (room override or global). -/
def activeOptsOf (mfg : Manufacturer) (globalTierName : String)
    (globalOptions : List MfgOption) (specs : Option ProjectSpecs)
    (roomSpecs : List (String × ProjectSpecs)) (item : CabinetItem) : List MfgOption :=
  (effContext mfg globalTierName globalOptions specs roomSpecs item).2.2

/-- the item's base-price match (the five passes at the effective tier). -/
def matchOf (mfg : Manufacturer) (globalTierName : String)
    (globalOptions : List MfgOption) (specs : Option ProjectSpecs)
    (roomSpecs : List (String × ProjectSpecs)) (item : CabinetItem) : Option PriceMatch :=
  resolveMatch mfg.catalog (effTierOf mfg globalTierName globalOptions specs roomSpecs item) item

/-- the resolved (unrounded) base price: matched price, else extracted price, else 0. -/
def basePriceRawOf (mfg : Manufacturer) (globalTierName : String)
    (globalOptions : List MfgOption) (specs : Option ProjectSpecs)
    (roomSpecs : List (String × ProjectSpecs)) (item : CabinetItem) : Rat :=
  match matchOf mfg globalTierName globalOptions specs roomSpecs item with
  | some pm => pm.price
  | none => if 0 < item.extractedPrice then item.extractedPrice else 0

/-- the provenance string of the base price. -/
def sourceOf (mfg : Manufacturer) (globalTierName : String)
    (globalOptions : List MfgOption) (specs : Option ProjectSpecs)
    (roomSpecs : List (String × ProjectSpecs)) (item : CabinetItem) : String :=
  match matchOf mfg globalTierName globalOptions specs roomSpecs item with
  | some pm => pm.source
  | none => if 0 < item.extractedPrice then "Extracted from PDF" else "NOT FOUND"

/-- the SKU recorded on the output line (`matchedSku`, else the raw code). -/
def matchedSkuOf (mfg : Manufacturer) (globalTierName : String)
    (globalOptions : List MfgOption) (specs : Option ProjectSpecs)
    (roomSpecs : List (String × ProjectSpecs)) (item : CabinetItem) : String :=
  match matchOf mfg globalTierName globalOptions specs roomSpecs item with
  | some pm => pm.matchedSku
  | none => item.originalCode

/-- options price and log after steps 1 (modifications), 2 (fixed) and 4
(percentage). -/
def optionsAccOf (mfg : Manufacturer) (globalTierName : String)
    (globalOptions : List MfgOption) (specs : Option ProjectSpecs)
    (roomSpecs : List (String × ProjectSpecs)) (item : CabinetItem) :
    Rat × List AppliedOpt :=
  let activeOptions := activeOptsOf mfg globalTierName globalOptions specs roomSpecs item
  percPhase activeOptions
    (basePriceRawOf mfg globalTierName globalOptions specs roomSpecs item)
    (fixedPhase activeOptions item.typ (modPhase item.modifications))

/-- the unrounded unit cost `(basePrice + optionsPrice) * factor`. -/
def unitCostRawOf (mfg : Manufacturer) (globalTierName : String)
    (globalOptions : List MfgOption) (specs : Option ProjectSpecs)
    (financials : Option ProjectFinancials) (roomSpecs : List (String × ProjectSpecs))
    (item : CabinetItem) : Rat :=
  (basePriceRawOf mfg globalTierName globalOptions specs roomSpecs item +
    (optionsAccOf mfg globalTierName globalOptions specs roomSpecs item).1) *
    factorOf mfg financials item.room

/-- the normalized margin fraction (a stored value > 1 is a whole-number percent). -/
def marginDecOf (financials : Option ProjectFinancials) (effTierName : String) : Rat :=
  let margin := marginRawOf financials effTierName
  if 1 < margin then margin / 100 else margin

/-- the unrounded unit sell price: `cost` when the margin fraction is ≥ 1
(division guard), else `cost / (1 - marginFraction)`. -/
def unitSellRawOf (mfg : Manufacturer) (globalTierName : String)
    (globalOptions : List MfgOption) (specs : Option ProjectSpecs)
    (financials : Option ProjectFinancials) (roomSpecs : List (String × ProjectSpecs))
    (item : CabinetItem) : Rat :=
  let unitCost := unitCostRawOf mfg globalTierName globalOptions specs financials roomSpecs item
  let marginDecimal :=
    marginDecOf financials (effTierOf mfg globalTierName globalOptions specs roomSpecs item)
  if 1 ≤ marginDecimal then unitCost else unitCost / (1 - marginDecimal)

/-- the per-item body of the `items.forEach` loop of `calculateProjectPricing`,
assembled from the named intermediate values above. -/
def priceItem (mfg : Manufacturer) (globalTierName : String)
    (globalOptions : List MfgOption) (specs : Option ProjectSpecs)
    (financials : Option ProjectFinancials) (roomSpecs : List (String × ProjectSpecs))
    (item : CabinetItem) : PricingLineItem :=
  let effTierName := effTierOf mfg globalTierName globalOptions specs roomSpecs item
  let unitSell := unitSellRawOf mfg globalTierName globalOptions specs financials roomSpecs item
  { id := item.id
    originalCode := item.originalCode
    normalizedCode := matchedSkuOf mfg globalTierName globalOptions specs roomSpecs item
    typ := item.typ
    description := item.description
    width := item.width
    height := item.height
    depth := item.depth
    quantity := item.quantity
    room := item.room
    basePrice :=
      mkRat (jsRound (basePriceRawOf mfg globalTierName globalOptions specs roomSpecs item)) 1
    optionsPrice :=
      mkRat (jsRound (optionsAccOf mfg globalTierName globalOptions specs roomSpecs item).1) 1
    tierMultiplier := 1
    unitCost :=
      roundCents (unitCostRawOf mfg globalTierName globalOptions specs financials roomSpecs item)
    finalUnitPrice := roundCents unitSell
    totalPrice := roundCents (unitSell * item.quantity)
    pricingFactor := factorOf mfg financials item.room
    margin := marginDecOf financials effTierName * 100
    tierName := if effTierName = "" then "Standard" else effTierName
    source := sourceOf mfg globalTierName globalOptions specs roomSpecs item
    appliedOptions := (optionsAccOf mfg globalTierName globalOptions specs roomSpecs item).2 }

/-- `globalTierName`: the tier found by id, else the first tier, else
`specs.priceGroup || 'Standard'`. -/
def globalTierNameOf (mfg : Manufacturer) (tierId : String)
    (specs : Option ProjectSpecs) : String :=
  match (mfg.tiers.find? (fun t => t.id == tierId)) <|> mfg.tiers.head? with
  | some t => t.name
  | none =>
    match specs.bind (·.priceGroup) with
    | some pg => if pg ≠ "" then pg else "Standard"
    | none => "Standard"

/-- the type-priority table of the output sort. -/
def typePriorityOf (t : String) : Nat :=
  let key := if t = "" then "Base" else t
  if key = "Base" then 1 else if key = "Wall" then 2
  else if key = "Tall" then 3 else if key = "Panel" then 4
  else if key = "Filler" then 5 else if key = "Accessory" then 6
  else if key = "Modification" then 7 else 99

/-- split a code into alternating digit/non-digit chunks, for numeric-aware
comparison. -/
def chunksGo (buf : List Char) (bufIsDig : Bool) : List Char → List (List Char)
  | [] => if buf.isEmpty then [] else [buf]
  | c :: rest =>
    if buf.isEmpty then chunksGo [c] (isDig c) rest
    else if isDig c == bufIsDig then chunksGo (buf ++ [c]) bufIsDig rest
    else buf :: chunksGo [c] (isDig c) rest

/-- plain lexicographic character comparison. -/
def compareChars : List Char → List Char → Ordering
  | [], [] => .eq
  | [], _ :: _ => .lt
  | _ :: _, [] => .gt
  | a :: as, b :: bs => match compare a b with | .eq => compareChars as bs | o => o

/-- chunk-wise comparison: numeric chunks by value, others lexicographically. -/
def cmpChunks : List (List Char) → List (List Char) → Ordering
  | [], [] => .eq
  | [], _ :: _ => .lt
  | _ :: _, [] => .gt
  | x :: xs, y :: ys =>
    let o := if !x.isEmpty && x.all isDig && !y.isEmpty && y.all isDig then
               compare (natOfDigits x) (natOfDigits y)
             else compareChars x y
    match o with
    | .eq => cmpChunks xs ys
    | o => o

/-- model of `localeCompare(undefined, { numeric: true, sensitivity: 'base' })`:
case-insensitive, digit runs compared as numbers. -/
def cmpCode (a b : String) : Ordering :=
  cmpChunks (chunksGo [] false (lowL a.data)) (chunksGo [] false (lowL b.data))

/-- the output sort order of `calculateProjectPricing`. -/
def lineLE (a b : PricingLineItem) : Bool :=
  let pa := typePriorityOf a.typ
  let pb := typePriorityOf b.typ
  if pa ≠ pb then pa ≤ pb else cmpCode a.originalCode b.originalCode ≠ .gt

/-- `calculateProjectPricing`: garbage filter, per-item pricing, stable sort.
JS `Array.prototype.sort` (stable per ES2019) is modelled by a stable
insertion sort; for a consistent comparator all stable sorts agree. -/
def calculateProjectPricing (items : List CabinetItem) (mfg : Manufacturer)
    (tierId : String) (specs : Option ProjectSpecs)
    (financials : Option ProjectFinancials)
    (roomSpecs : List (String × ProjectSpecs)) : List PricingLineItem :=
  let globalTierName := globalTierNameOf mfg tierId specs
  let globalOptions := getOptionsForSpecs mfg.options specs
  List.insertionSort (fun a b => lineLE a b)
    ((items.filter (fun i => !isGarbageItem i)).map
      (priceItem mfg globalTierName globalOptions specs financials roomSpecs))

/-! ## The percentage-phase log, described independently

`percLog opts base` is the list of log entries the percentage phase appends:
one entry per active `percentage` option, except those whose name exceeds 50
characters while the computed surcharge is zero.  It depends only on the
option list and the resolved base price — not on the item. -/
def percLog (opts : List MfgOption) (base : Rat) : List AppliedOpt :=
  opts.filterMap fun o =>
    if o.pricingType == "percentage" && !(percSkip base o) then
      some ⟨o.name ++ " (" ++ intToStr (jsRound (pctOf o * 100)) ++ "%)",
            base * pctOf o, some o.sect⟩
    else none

/-! ## Concrete fixtures used by the claims -/

/-- a single `Standard` tier, as in the repository's own tests. -/
def stdTiers : List MfgTier := [{ id := "standard", name := "Standard", multiplier := 1 }]

/-- a manufacturer with the given catalog and options. -/
def mfgWith (cat : Catalog) (opts : List MfgOption) : Manufacturer :=
  { id := "mfg-1", name := "Test Mfg", basePricingMultiplier := 1,
    tiers := stdTiers, options := opts, catalog := cat }

/-- a manufacturer with an empty catalog (nothing can match). -/
def emptyMfg : Manufacturer := mfgWith [] []

/-- a minimal item with the given code, type and quantity. -/
def mkItem (code typ : String) (qty : Rat) : CabinetItem :=
  { id := "1", originalCode := code, normalizedCode := code, typ := typ,
    description := "", width := 0, height := 0, depth := 0, quantity := qty }

/-- C2: catalog price 1, margin 0.7 → unit sell 10/3, quantity 3. -/
def c2Mfg : Manufacturer := mfgWith [("B15", [("Standard", 1)])] []

def c2Item : CabinetItem := mkItem "B15" "Base" 3

def c2Fin : ProjectFinancials := { pricingFactor := some 1, globalMargin := some (7 / 10) }

/-- the line item C2's input produces. -/
def c2Line : PricingLineItem :=
  priceItem c2Mfg (globalTierNameOf c2Mfg "standard" none)
    (getOptionsForSpecs c2Mfg.options none) none (some c2Fin) [] c2Item

/-- C3: the percentage option of the repository's pricing-debug test
(`price 15` meaning 15%), selected through `specs.finishColor`. -/
def c3Opt : MfgOption :=
  { id := "opt-1", name := "Finish: Painted", sect := "D-Finish",
    pricingType := "percentage", price := 15, category := "Finish" }

def c3Mfg : Manufacturer := mfgWith [("B15", [("Standard", 200)])] [c3Opt]

def c3Specs : ProjectSpecs := { finishColor := some "Finish: Painted" }

def c3Item : CabinetItem := mkItem "B15" "Base" 1

/-- C4: factor 0.45, margin 35, base 1000. -/
def c4Mfg : Manufacturer := mfgWith [("B15", [("Standard", 1000)])] []

def c4Item : CabinetItem := mkItem "B15" "Base" 1

def c4Fin : ProjectFinancials :=
  { pricingFactor := some (45 / 100), globalMargin := some 35 }

/-- C5: unmatched item carrying extracted price 100.4. -/
def c5Item : CabinetItem := { mkItem "B15" "Base" 1 with extractedPrice := mkRat 502 5 }

/-- C6: the claim's two-variant vanity catalog and the repo test item. -/
def c6Mfg : Manufacturer :=
  mfgWith [("VDB24", [("Standard", 400)]), ("VDB24-3", [("Standard", 450)])] []

def c6Item : CabinetItem :=
  { id := "4", originalCode := "VDB24AH-3", normalizedCode := "VDB24AH-3", typ := "Base",
    description := "Vanity", width := 24, height := 69 / 2, depth := 21, quantity := 1 }

/-- C7: a catalog whose key is the literal `UNKNOWN`. -/
def c7Mfg : Manufacturer := mfgWith [("UNKNOWN", [("Standard", 100)])] []

def c7Item : CabinetItem := mkItem "UNKNOWN" "Base" 1

/-- C7 witness fixture: a plain exact match. -/
def c7wMfg : Manufacturer := mfgWith [("B15", [("Standard", 200)])] []

def c7wItem : CabinetItem := mkItem "B15" "Base" 1

/-- C8: a code whose normalized form differs from the raw code. -/
def c8Item : CabinetItem := mkItem "SB 33" "Base" 1

/-- C9: garbage fixtures from the claim. -/
def c9SubItem : CabinetItem := mkItem "SUBTOTAL" "Base" 1

def c9TotItem : CabinetItem :=
  { mkItem "B15" "Base" 1 with description := "Grand Total for job" }

/-- C10: a percentage option whose name contains `wall`, selected by checkbox,
applied to a `Base` item — versus the same option with `pricingType = fixed`. -/
def c10PctOpt : MfgOption :=
  { id := "o1", name := "Wall Shimmer", sect := "D-Finish",
    pricingType := "percentage", price := 15 }

def c10FixOpt : MfgOption := { c10PctOpt with pricingType := "fixed" }

def c10Specs : ProjectSpecs := { selectedOptions := [("o1", true)] }

def c10PctMfg : Manufacturer := mfgWith [("B15", [("Standard", 200)])] [c10PctOpt]

def c10FixMfg : Manufacturer := mfgWith [("B15", [("Standard", 200)])] [c10FixOpt]

def c10Item : CabinetItem := mkItem "B15" "Base" 1

/-- C4 witness fixture: margin stored as 150 (≥ 100%), triggering the
division guard. -/
def c4HiFin : ProjectFinancials := { pricingFactor := some 1, globalMargin := some 150 }

/-- the C5 input priced to a line. -/
def c5Line : PricingLineItem :=
  priceItem emptyMfg (globalTierNameOf emptyMfg "standard" none)
    (getOptionsForSpecs emptyMfg.options none) none none [] c5Item

/-- the C7 witness input priced to a line. -/
def c7wLine : PricingLineItem :=
  priceItem c7wMfg (globalTierNameOf c7wMfg "standard" none)
    (getOptionsForSpecs c7wMfg.options none) none none [] c7wItem

/-- the C8 input priced to a line. -/
def c8Line : PricingLineItem :=
  priceItem emptyMfg (globalTierNameOf emptyMfg "standard" none)
    (getOptionsForSpecs emptyMfg.options none) none none [] c8Item

/-! ## Infrastructure lemmas -/

theorem ratFloor_eq_floor (x : Rat) : x.floor = ⌊x⌋ :=
  (Rat.floor_def' x).trans Rat.floor_def.symm

theorem jsRound_eq_round (x : Rat) : jsRound x = round x := by
  rw [round_eq, jsRound, ratFloor_eq_floor]

theorem roundCents_eq (x : Rat) : roundCents x = ((round (x * 100) : Int) : Rat) / 100 := by
  unfold roundCents
  rw [jsRound_eq_round, Rat.mkRat_eq_divInt, Rat.divInt_eq_div]
  norm_num

theorem abs_roundCents_sub (x : Rat) : |roundCents x - x| ≤ 1 / 200 := by
  have h : |x * 100 - (round (x * 100) : Rat)| ≤ 1 / 2 := abs_sub_round (x * 100)
  have h2 : |(round (x * 100) : Rat) - x * 100| ≤ 1 / 2 := by
    rw [abs_sub_comm]; exact h
  have hx : roundCents x - x = ((round (x * 100) : Rat) - x * 100) / 100 := by
    rw [roundCents_eq]; ring
  rw [hx, abs_div]
  rw [show |(100 : Rat)| = 100 by norm_num]
  linarith

theorem roundCents_mul_bound (s q : Rat) :
    |roundCents (s * q) - roundCents s * q| ≤ (1 + |q|) / 200 := by
  have h1 : |roundCents (s * q) - s * q| ≤ 1 / 200 := abs_roundCents_sub (s * q)
  have h2 : |roundCents s - s| ≤ 1 / 200 := abs_roundCents_sub s
  have h3 : |roundCents s * q - s * q| = |roundCents s - s| * |q| := by
    rw [← abs_mul]; ring_nf
  have h4 : |roundCents s * q - s * q| ≤ |q| / 200 := by
    rw [h3]
    calc |roundCents s - s| * |q| ≤ (1 / 200) * |q| := by
          exact mul_le_mul_of_nonneg_right h2 (abs_nonneg q)
      _ = |q| / 200 := by ring
  calc |roundCents (s * q) - roundCents s * q|
      ≤ |roundCents (s * q) - s * q| + |s * q - roundCents s * q| := abs_sub_le _ _ _
    _ = |roundCents (s * q) - s * q| + |roundCents s * q - s * q| := by rw [abs_sub_comm (s * q)]
    _ ≤ 1 / 200 + |q| / 200 := add_le_add h1 h4
    _ = (1 + |q|) / 200 := by ring

/-- membership in the output of `calculateProjectPricing` is exactly: some
non-garbage input item priced to this line. -/
theorem mem_calc {r : PricingLineItem} {items : List CabinetItem} {mfg : Manufacturer}
    {tid : String} {specs : Option ProjectSpecs} {fin : Option ProjectFinancials}
    {rooms : List (String × ProjectSpecs)} :
    r ∈ calculateProjectPricing items mfg tid specs fin rooms ↔
      ∃ item, item ∈ items ∧ isGarbageItem item = false ∧
        r = priceItem mfg (globalTierNameOf mfg tid specs)
              (getOptionsForSpecs mfg.options specs) specs fin rooms item := by
  unfold calculateProjectPricing
  rw [List.mem_insertionSort, List.mem_map]
  constructor
  · rintro ⟨item, hmem, rfl⟩
    rw [List.mem_filter] at hmem
    exact ⟨item, hmem.1, by simpa using hmem.2, rfl⟩
  · rintro ⟨item, hmem, hg, rfl⟩
    exact ⟨item, List.mem_filter.2 ⟨hmem, by simp [hg]⟩, rfl⟩

/-- the percentage phase in closed form: the options price grows by
`base * pct` for every `percentage` option, and the log grows by `percLog`.
The result is a function of the option list and base price alone. -/
theorem percPhase_spec (opts : List MfgOption) (base : Rat) (acc : Rat × List AppliedOpt) :
    percPhase opts base acc =
      (acc.1 + ((opts.filter (fun o => o.pricingType == "percentage")).map
          (fun o => base * pctOf o)).sum,
       acc.2 ++ percLog opts base) := by
  induction opts generalizing acc with
  | nil => simp [percPhase, percLog]
  | cons o rest ih =>
    have hstep : percPhase (o :: rest) base acc = percPhase rest base (percStep base acc o) := rfl
    rw [hstep, ih]
    by_cases hp : (o.pricingType == "percentage") = true
    · have hfil : List.filter (fun o => o.pricingType == "percentage") (o :: rest)
          = o :: List.filter (fun o => o.pricingType == "percentage") rest :=
        List.filter_cons_of_pos hp
      by_cases hskip : percSkip base o = true
      · have hzero : base * pctOf o = 0 := by
          have h2 : (50 < o.name.length && base * pctOf o == 0) = true := by
            simpa [percSkip] using hskip
          have h3 := (Bool.and_eq_true _ _).mp h2
          exact beq_iff_eq.1 h3.2
        have hstep2 : percStep base acc o = acc := by
          simp [percStep, hp, hskip]
        have hskip2 : percSkip base o = true := hskip
        have hlog : percLog (o :: rest) base = percLog rest base := by
          simp [percLog, List.filterMap_cons, hskip2]
        rw [hstep2, hlog, hfil]
        simp [hzero]
      · have hp2 : o.pricingType = "percentage" := by simpa using hp
        have hskip2 : percSkip base o = false := by simpa using hskip
        have hstep2 : percStep base acc o =
            (acc.1 + base * pctOf o,
             acc.2 ++ [⟨o.name ++ " (" ++ intToStr (jsRound (pctOf o * 100)) ++ "%)",
                        base * pctOf o, some o.sect⟩]) := by
          simp [percStep, hp, hskip]
        have hlog : percLog (o :: rest) base =
            ⟨o.name ++ " (" ++ intToStr (jsRound (pctOf o * 100)) ++ "%)",
             base * pctOf o, some o.sect⟩ :: percLog rest base := by
          simp [percLog, List.filterMap_cons, hp2, hskip2]
        rw [hstep2, hlog, hfil]
        simp [add_assoc]
    · have hp2 : ¬ o.pricingType = "percentage" := by simpa using hp
      have hstep2 : percStep base acc o = acc := by
        simp [percStep, hp]
      have hlog : percLog (o :: rest) base = percLog rest base := by
        simp [percLog, List.filterMap_cons, hp2]
      have hfil : List.filter (fun o => o.pricingType == "percentage") (o :: rest)
          = List.filter (fun o => o.pricingType == "percentage") rest := by
        simp [List.filter_cons, hp2]
      rw [hstep2, hlog, hfil]

/-- pricing a single non-garbage item yields exactly its line. -/
theorem calc_singleton (mfg : Manufacturer) (tid : String) (specs : Option ProjectSpecs)
    (fin : Option ProjectFinancials) (rooms : List (String × ProjectSpecs))
    (item : CabinetItem) (h : isGarbageItem item = false) :
    calculateProjectPricing [item] mfg tid specs fin rooms =
      [priceItem mfg (globalTierNameOf mfg tid specs)
        (getOptionsForSpecs mfg.options specs) specs fin rooms item] := by
  unfold calculateProjectPricing
  simp [List.filter_cons, h, List.insertionSort, List.orderedInsert]

/-- a non-empty catalog row always resolves to some tier price. -/
theorem tierResolve_isSome (entry : CatalogEntry) (tid : String) (h : entry ≠ []) :
    ∃ p lab, tierResolve entry tid = some (p, lab) := by
  cases entry with
  | nil => exact absurd rfl h
  | cons kv0 rest =>
    unfold tierResolve
    split
    · exact ⟨_, _, rfl⟩
    · split
      · exact ⟨_, _, rfl⟩
      · split
        · exact ⟨_, _, rfl⟩
        · split
          · exact ⟨_, _, rfl⟩
          · exact ⟨_, _, rfl⟩

/-! ## Claim theorems -/

/-- **C1, counterexample.**  The Code Normalizer is not idempotent: `"B15-2B-FE"`
normalizes to `"B15-2B"` (the `-FE` strip exposes a `-2B` suffix), and a second
pass strips further to `"B15"`. -/
theorem C1_counterexample :
    normalizeNKBACode "B15-2B-FE" = "B15-2B" ∧
    normalizeNKBACode (normalizeNKBACode "B15-2B-FE") = "B15" ∧
    normalizeNKBACode (normalizeNKBACode "B15-2B-FE") ≠ normalizeNKBACode "B15-2B-FE" := by
  decide

/-- **C2, counterexample.**  With catalog price 1, margin 0.7 and quantity 3
the unrounded sell price is 10/3: `totalPrice = round2(10) = 10` but
`round2(finalUnitPrice × quantity) = round2(3.33 × 3) = 9.99`, so
`totalPrice = round2(finalUnitPrice × quantity)` fails on the output. -/
theorem C2_counterexample :
    ((calculateProjectPricing [c2Item] c2Mfg "standard" none (some c2Fin) []).all
      (fun r => r.totalPrice == roundCents (r.finalUnitPrice * r.quantity))) = false ∧
    (calculateProjectPricing [c2Item] c2Mfg "standard" none (some c2Fin) []).map
      (fun r => (r.totalPrice, r.finalUnitPrice, r.quantity)) = [(10, mkRat 333 100, 3)] := by
  with_unfolding_all decide

/-- **C3, confirmed.**  Every active `percentage` option adds exactly
`basePrice × p` to the options price, where `p` is the stored value if ≤ 1 and
the stored value / 100 otherwise (`pctOf`); a stored 15 on base 200 contributes
30 — shown end-to-end on the repository's own pricing-debug fixture. -/
theorem C3_percentage_semantics :
    (∀ (opts : List MfgOption) (base : Rat) (acc : Rat × List AppliedOpt),
      (percPhase opts base acc).1 =
        acc.1 + ((opts.filter (fun o => o.pricingType == "percentage")).map
          (fun o => base * pctOf o)).sum) ∧
    pctOf c3Opt = mkRat 15 100 ∧
    (calculateProjectPricing [c3Item] c3Mfg "standard" (some c3Specs) none []).map
      (fun r => (r.basePrice, r.optionsPrice, r.appliedOptions)) =
      [(200, 30, [⟨"Finish: Painted (15%)", 30, some "D-Finish"⟩])] := by
  refine ⟨fun opts base acc => by rw [percPhase_spec], ?_, ?_⟩
  · with_unfolding_all decide
  · with_unfolding_all decide

/-- **C5, counterexample.**  An unmatched item with extracted price 100.4 is
priced from the PDF, but the emitted `basePrice` is `Math.round`ed to 100 —
it does not equal the extracted price itself. -/
theorem C5_counterexample :
    (calculateProjectPricing [c5Item] emptyMfg "standard" none none []).map
      (fun r => (r.source, r.basePrice)) = [("Extracted from PDF", 100)] ∧
    c5Item.extractedPrice = mkRat 502 5 ∧
    (100 : Rat) ≠ mkRat 502 5 := by
  with_unfolding_all decide

/-- **C5, amended.**  When no pass matches, a line item is still emitted:
with a positive extracted price the source is `Extracted from PDF` and the
emitted `basePrice` is the extracted price rounded (`Math.round`); otherwise
`basePrice = 0` and source is `NOT FOUND`. -/
theorem C5_amended :
    ∀ (mfg : Manufacturer) (tid : String) (specs : Option ProjectSpecs)
      (fin : Option ProjectFinancials) (rooms : List (String × ProjectSpecs))
      (item : CabinetItem),
      isGarbageItem item = false →
      matchOf mfg (globalTierNameOf mfg tid specs) (getOptionsForSpecs mfg.options specs)
        specs rooms item = none →
      ∃ r, calculateProjectPricing [item] mfg tid specs fin rooms = [r] ∧
        (0 < item.extractedPrice →
          r.basePrice = mkRat (jsRound item.extractedPrice) 1 ∧
          r.source = "Extracted from PDF") ∧
        (¬ 0 < item.extractedPrice → r.basePrice = 0 ∧ r.source = "NOT FOUND") := by
  intro mfg tid specs fin rooms item hg hmatch
  refine ⟨priceItem mfg (globalTierNameOf mfg tid specs)
    (getOptionsForSpecs mfg.options specs) specs fin rooms item,
    calc_singleton mfg tid specs fin rooms item hg, ?_, ?_⟩
  · intro hx
    constructor
    · show mkRat (jsRound (basePriceRawOf mfg (globalTierNameOf mfg tid specs)
        (getOptionsForSpecs mfg.options specs) specs rooms item)) 1 = _
      unfold basePriceRawOf
      rw [hmatch, if_pos hx]
    · show sourceOf mfg (globalTierNameOf mfg tid specs)
        (getOptionsForSpecs mfg.options specs) specs rooms item = _
      unfold sourceOf
      rw [hmatch, if_pos hx]
  · intro hx
    constructor
    · show mkRat (jsRound (basePriceRawOf mfg (globalTierNameOf mfg tid specs)
        (getOptionsForSpecs mfg.options specs) specs rooms item)) 1 = _
      unfold basePriceRawOf
      rw [hmatch, if_neg hx]
      with_unfolding_all rfl
    · show sourceOf mfg (globalTierNameOf mfg tid specs)
        (getOptionsForSpecs mfg.options specs) specs rooms item = _
      unfold sourceOf
      rw [hmatch, if_neg hx]

/-- **C5, amended, witness** at the concrete extracted-price input. -/
theorem C5_amended_witness :
    calculateProjectPricing [c5Item] emptyMfg "standard" none none [] = [c5Line] ∧
    c5Line.basePrice = mkRat (jsRound c5Item.extractedPrice) 1 ∧
    c5Line.source = "Extracted from PDF" := by
  obtain ⟨r, hr, hpos, -⟩ :=
    C5_amended emptyMfg "standard" none none [] c5Item (by decide)
      (by with_unfolding_all decide)
  have hx : 0 < c5Item.extractedPrice := by with_unfolding_all decide
  obtain ⟨hb, hs⟩ := hpos hx
  have hcalc : calculateProjectPricing [c5Item] emptyMfg "standard" none none [] = [c5Line] :=
    calc_singleton emptyMfg "standard" none none [] c5Item (by decide)
  rw [hcalc] at hr
  have hrl : c5Line = r := by injection hr
  exact ⟨hcalc, hrl ▸ hb, hrl ▸ hs⟩

/-- **C6, confirmed.**  On the catalog `{VDB24: 400, VDB24-3: 450}` the item
`VDB24AH-3` resolves (via the normalizer's construction-suffix strip and the
key generator) to a VDB24 variant: one line item, source not `NOT FOUND`,
base price 400 or 450. -/
theorem C6_vdb_pipeline :
    (calculateProjectPricing [c6Item] c6Mfg "standard" none none []).length = 1 ∧
    ((calculateProjectPricing [c6Item] c6Mfg "standard" none none []).all
      (fun r => r.source != "NOT FOUND" && (r.basePrice == 400 || r.basePrice == 450))) = true := by
  with_unfolding_all decide

/-- **C7, counterexample.**  The item code `UNKNOWN` is exactly a key of the
catalog, yet the matcher refuses the literal `UNKNOWN` and the line item comes
out `NOT FOUND` with base price 0. -/
theorem C7_counterexample :
    lookupA c7Mfg.catalog c7Item.originalCode = some [("Standard", 100)] ∧
    (calculateProjectPricing [c7Item] c7Mfg "standard" none none []).map
      (fun r => (r.source, r.basePrice)) = [("NOT FOUND", 0)] := by
  with_unfolding_all decide

/-- `Exact` occurs in the exact-match source string. -/
theorem containsL_exact (lab : String) :
    containsL ("Catalog (" ++ "Exact" ++ " " ++ lab ++ ")").data "Exact".data = true := by
  unfold containsL
  rw [decide_eq_true_eq]
  simp only [String.data_append]
  exact ⟨"Catalog (".data, " ".data ++ lab.data ++ ")".data, by simp⟩

/-- **C7, amended.**  For a non-garbage item whose code is exactly a catalog
key, already in normalized lookup form, non-empty and not the literal
`UNKNOWN`, with a non-empty catalog row: pass 1 hits, the source is the
`Exact` form for the resolved tier label, and the emitted `basePrice` is the
resolved tier price, `Math.round`ed. -/
theorem C7_amended :
    ∀ (mfg : Manufacturer) (tid : String) (specs : Option ProjectSpecs)
      (fin : Option ProjectFinancials) (rooms : List (String × ProjectSpecs))
      (item : CabinetItem) (entry : CatalogEntry),
      normalizeLookup item.originalCode = item.originalCode →
      item.originalCode ≠ "" →
      item.originalCode ≠ "UNKNOWN" →
      isGarbageItem item = false →
      lookupA mfg.catalog item.originalCode = some entry →
      entry ≠ [] →
      ∃ r p lab,
        calculateProjectPricing [item] mfg tid specs fin rooms = [r] ∧
        tierResolve entry (effTierOf mfg (globalTierNameOf mfg tid specs)
          (getOptionsForSpecs mfg.options specs) specs rooms item) = some (p, lab) ∧
        r.source = "Catalog (" ++ "Exact" ++ " " ++ lab ++ ")" ∧
        containsL r.source.data "Exact".data = true ∧
        r.basePrice = mkRat (jsRound p) 1 := by
  intro mfg tid specs fin rooms item entry hn hne hnu hg hcat hent
  obtain ⟨p, lab, htr⟩ := tierResolve_isSome entry
    (effTierOf mfg (globalTierNameOf mfg tid specs)
      (getOptionsForSpecs mfg.options specs) specs rooms item) hent
  have hfind : findCatalogPrice item.originalCode mfg.catalog
      (effTierOf mfg (globalTierNameOf mfg tid specs)
        (getOptionsForSpecs mfg.options specs) specs rooms item) true =
      some ⟨p, "Catalog (" ++ "Exact" ++ " " ++ lab ++ ")", item.originalCode⟩ := by
    unfold findCatalogPrice
    simp only [hn]
    rw [if_neg (by simp [hne, hnu])]
    simp only [hcat]
    unfold getPriceFromItem
    rw [htr]
    rfl
  have hres : resolveMatch mfg.catalog
      (effTierOf mfg (globalTierNameOf mfg tid specs)
        (getOptionsForSpecs mfg.options specs) specs rooms item) item =
      some ⟨p, "Catalog (" ++ "Exact" ++ " " ++ lab ++ ")", item.originalCode⟩ := by
    unfold resolveMatch
    simp only [hfind]
  have hsrc : sourceOf mfg (globalTierNameOf mfg tid specs)
      (getOptionsForSpecs mfg.options specs) specs rooms item =
      "Catalog (" ++ "Exact" ++ " " ++ lab ++ ")" := by
    unfold sourceOf matchOf
    rw [hres]
  refine ⟨priceItem mfg (globalTierNameOf mfg tid specs)
      (getOptionsForSpecs mfg.options specs) specs fin rooms item, p, lab,
    calc_singleton mfg tid specs fin rooms item hg, htr, hsrc, ?_, ?_⟩
  · show containsL (sourceOf mfg (globalTierNameOf mfg tid specs)
      (getOptionsForSpecs mfg.options specs) specs rooms item).data "Exact".data = true
    rw [hsrc]
    exact containsL_exact lab
  · show mkRat (jsRound (basePriceRawOf mfg (globalTierNameOf mfg tid specs)
      (getOptionsForSpecs mfg.options specs) specs rooms item)) 1 = _
    unfold basePriceRawOf matchOf
    rw [hres]

/-- **C7, amended, witness**: a plain exact match on `B15`. -/
theorem C7_amended_witness :
    calculateProjectPricing [c7wItem] c7wMfg "standard" none none [] = [c7wLine] ∧
    c7wLine.source = "Catalog (" ++ "Exact" ++ " " ++ "Tier" ++ ")" ∧
    c7wLine.basePrice = 200 := by
  obtain ⟨r, p, lab, hcalc, htr, hsrc, -, hbase⟩ :=
    C7_amended c7wMfg "standard" none none [] c7wItem [("Standard", 200)]
      (by decide) (by decide) (by decide) (by decide)
      (by with_unfolding_all rfl) (by decide)
  have htr2 : tierResolve [("Standard", 200)]
      (effTierOf c7wMfg (globalTierNameOf c7wMfg "standard" none)
        (getOptionsForSpecs c7wMfg.options none) none [] c7wItem) =
      some (200, "Tier") := by with_unfolding_all rfl
  rw [htr2] at htr
  have hp : (p, lab) = ((200 : Rat), "Tier") := by
    injection htr.symm
  have hp1 : p = 200 := congrArg Prod.fst hp
  have hp2 : lab = "Tier" := congrArg Prod.snd hp
  have hcalc2 : calculateProjectPricing [c7wItem] c7wMfg "standard" none none [] = [c7wLine] :=
    calc_singleton c7wMfg "standard" none none [] c7wItem (by decide)
  rw [hcalc2] at hcalc
  have hrl : c7wLine = r := by injection hcalc
  refine ⟨hcalc2, ?_, ?_⟩
  · rw [hrl, hsrc, hp2]
  · rw [hrl, hbase, hp1]
    with_unfolding_all rfl

/-- **C8, counterexample.**  For the unmatched code `"SB 33"` the emitted
`normalizedCode` is the raw `originalCode` (`"SB 33"`), not the Normalizer's
output (`"SB33"`). -/
theorem C8_counterexample :
    (calculateProjectPricing [c8Item] emptyMfg "standard" none none []).map
      (fun r => r.normalizedCode) = ["SB 33"] ∧
    normalizeNKBACode c8Item.originalCode = "SB33" ∧
    ("SB 33" : String) ≠ "SB33" := by
  with_unfolding_all decide

/-- **C9, confirmed.**  The output never exceeds the input in length, an item
flagged by the Garbage Filter contributes no line item, and the claim's two
examples (`originalCode = "SUBTOTAL"`, description containing `Grand Total`)
are indeed flagged. -/
theorem C9_garbage_filter :
    (∀ (items : List CabinetItem) (mfg : Manufacturer) (tid : String)
       (specs : Option ProjectSpecs) (fin : Option ProjectFinancials)
       (rooms : List (String × ProjectSpecs)),
      (calculateProjectPricing items mfg tid specs fin rooms).length ≤ items.length) ∧
    (∀ (item : CabinetItem) (items : List CabinetItem) (mfg : Manufacturer) (tid : String)
       (specs : Option ProjectSpecs) (fin : Option ProjectFinancials)
       (rooms : List (String × ProjectSpecs)),
      isGarbageItem item = true →
      calculateProjectPricing (item :: items) mfg tid specs fin rooms =
        calculateProjectPricing items mfg tid specs fin rooms) ∧
    isGarbageItem c9SubItem = true ∧ isGarbageItem c9TotItem = true := by
  refine ⟨?_, ?_, by decide, by decide⟩
  · intro items mfg tid specs fin rooms
    unfold calculateProjectPricing
    rw [List.length_insertionSort, List.length_map]
    exact List.length_filter_le _ _
  · intro item items mfg tid specs fin rooms h
    unfold calculateProjectPricing
    simp [List.filter_cons, h]

/-- **C9, witness.**  A `SUBTOTAL` line contributes nothing. -/
theorem C9_garbage_filter_witness :
    calculateProjectPricing (c9SubItem :: []) emptyMfg "standard" none none [] =
      calculateProjectPricing [] emptyMfg "standard" none none [] :=
  C9_garbage_filter.2.1 c9SubItem [] emptyMfg "standard" none none [] (by decide)

/-- **C2, amended.**  Every output line satisfies
`totalPrice = round2(unitSell × quantity)` where `unitSell` is the same
pre-rounding sell price whose rounding is `finalUnitPrice`; consequently
`totalPrice` differs from `finalUnitPrice × quantity` by at most
`(1 + |quantity|)/200`. -/
theorem C2_amended :
    ∀ (items : List CabinetItem) (mfg : Manufacturer) (tid : String)
      (specs : Option ProjectSpecs) (fin : Option ProjectFinancials)
      (rooms : List (String × ProjectSpecs)) (r : PricingLineItem),
      r ∈ calculateProjectPricing items mfg tid specs fin rooms →
      (∃ s : Rat, r.finalUnitPrice = roundCents s ∧
        r.totalPrice = roundCents (s * r.quantity)) ∧
      |r.totalPrice - r.finalUnitPrice * r.quantity| ≤ (1 + |r.quantity|) / 200 := by
  intro items mfg tid specs fin rooms r hr
  obtain ⟨item, -, -, rfl⟩ := mem_calc.mp hr
  constructor
  · exact ⟨unitSellRawOf mfg (globalTierNameOf mfg tid specs)
      (getOptionsForSpecs mfg.options specs) specs fin rooms item, rfl, rfl⟩
  · exact roundCents_mul_bound
      (unitSellRawOf mfg (globalTierNameOf mfg tid specs)
        (getOptionsForSpecs mfg.options specs) specs fin rooms item) item.quantity

/-- **C2, amended, witness** at the concrete 10/3 × 3 input. -/
theorem C2_amended_witness :
    (∃ s : Rat, c2Line.finalUnitPrice = roundCents s ∧
      c2Line.totalPrice = roundCents (s * c2Line.quantity)) ∧
    |c2Line.totalPrice - c2Line.finalUnitPrice * c2Line.quantity| ≤
      (1 + |c2Line.quantity|) / 200 :=
  C2_amended [c2Item] c2Mfg "standard" none (some c2Fin) [] c2Line
    (by with_unfolding_all decide)

/-- **C4, confirmed.**  The margin is normalized to a fraction (values > 1
divided by 100); the pre-rounding sell price is `unitCost` when the fraction
is ≥ 1 and `unitCost / (1 − fraction)` otherwise, and `finalUnitPrice` is its
rounding to cents; when the fraction is ≥ 1 the emitted `finalUnitPrice`
equals the emitted `unitCost`.  Concretely, factor 0.45, margin 35 and base
1000 yield `unitCost = 450` and `finalUnitPrice = 692.31`. -/
theorem C4_margin_math :
    (∀ (fin : Option ProjectFinancials) (effTierName : String),
      marginDecOf fin effTierName =
        (if 1 < marginRawOf fin effTierName then marginRawOf fin effTierName / 100
         else marginRawOf fin effTierName)) ∧
    (∀ (mfg : Manufacturer) (gtn : String) (gopts : List MfgOption)
       (specs : Option ProjectSpecs) (fin : Option ProjectFinancials)
       (rooms : List (String × ProjectSpecs)) (item : CabinetItem),
      (priceItem mfg gtn gopts specs fin rooms item).finalUnitPrice =
        roundCents
          (if 1 ≤ marginDecOf fin (effTierOf mfg gtn gopts specs rooms item) then
            unitCostRawOf mfg gtn gopts specs fin rooms item
          else
            unitCostRawOf mfg gtn gopts specs fin rooms item /
              (1 - marginDecOf fin (effTierOf mfg gtn gopts specs rooms item)))) ∧
    (∀ (mfg : Manufacturer) (gtn : String) (gopts : List MfgOption)
       (specs : Option ProjectSpecs) (fin : Option ProjectFinancials)
       (rooms : List (String × ProjectSpecs)) (item : CabinetItem),
      1 ≤ marginDecOf fin (effTierOf mfg gtn gopts specs rooms item) →
      (priceItem mfg gtn gopts specs fin rooms item).finalUnitPrice =
        (priceItem mfg gtn gopts specs fin rooms item).unitCost) ∧
    (calculateProjectPricing [c4Item] c4Mfg "standard" none (some c4Fin) []).map
      (fun r => (r.unitCost, r.finalUnitPrice, r.margin)) = [(450, mkRat 69231 100, 35)] := by
  refine ⟨fun fin t => rfl, fun mfg gtn gopts specs fin rooms item => rfl, ?_, ?_⟩
  · intro mfg gtn gopts specs fin rooms item h
    show roundCents (unitSellRawOf mfg gtn gopts specs fin rooms item) = _
    unfold unitSellRawOf
    rw [if_pos h]
    rfl
  · with_unfolding_all rfl

/-- **C4, witness** for the margin ≥ 1 guard: stored margin 150 normalizes to
1.5 and the sell price collapses to the unit cost. -/
theorem C4_margin_math_witness :
    (priceItem c4Mfg (globalTierNameOf c4Mfg "standard" none)
        (getOptionsForSpecs c4Mfg.options none) none (some c4HiFin) [] c4Item).finalUnitPrice =
      (priceItem c4Mfg (globalTierNameOf c4Mfg "standard" none)
        (getOptionsForSpecs c4Mfg.options none) none (some c4HiFin) [] c4Item).unitCost :=
  C4_margin_math.2.2.1 c4Mfg (globalTierNameOf c4Mfg "standard" none)
    (getOptionsForSpecs c4Mfg.options none) none (some c4HiFin) [] c4Item
    (by with_unfolding_all decide)

/-- a successful `getPriceFromItem` always tags the source `Catalog (…`. -/
theorem getPriceFromItem_source {entry : CatalogEntry} {tid sku method : String}
    {m : PriceMatch} (h : getPriceFromItem entry tid sku method = some m) :
    ∃ t, m.source = "Catalog (" ++ t := by
  unfold getPriceFromItem at h
  cases htr : tierResolve entry tid with
  | none => rw [htr] at h; simp at h
  | some pr =>
    rw [htr] at h
    simp only [Option.map_some'] at h
    have h2 := Option.some.inj h
    refine ⟨method ++ (" " ++ (pr.2 ++ ")")), ?_⟩
    rw [← h2]
    simp [String.append_assoc]

/-- the neighbor loop only returns `getPriceFromItem` results. -/
theorem neighborLoop_source {catalog : Catalog} {tid : String} {pfx sfx : List Char}
    {om : Option PriceMatch} {m : PriceMatch} :
    ∀ {ns : List Int}, neighborLoop catalog tid pfx sfx ns = some om → om = some m →
      ∃ t, m.source = "Catalog (" ++ t := by
  intro ns
  induction ns with
  | nil => intro h1 _; simp [neighborLoop] at h1
  | cons nh rest ih =>
    intro h1 h2
    unfold neighborLoop at h1
    dsimp only [] at h1
    split at h1
    · injection h1 with h3; exact getPriceFromItem_source (h3.trans h2)
    · split at h1
      · split at h1
        · injection h1 with h3; exact getPriceFromItem_source (h3.trans h2)
        · exact ih h1 h2
      · exact ih h1 h2

/-- the fuzzy-strip loop only returns `getPriceFromItem` results. -/
theorem fuzzyStripLoop_source {catalog : Catalog} {tid : String} {sku : List Char}
    {om : Option PriceMatch} {m : PriceMatch} :
    ∀ i, fuzzyStripLoop catalog tid sku i = some om → om = some m →
      ∃ t, m.source = "Catalog (" ++ t := by
  intro i
  induction i using Nat.strong_induction_on with
  | _ i ih =>
    match i with
    | 0 => intro h1 _; simp [fuzzyStripLoop] at h1
    | 1 => intro h1 _; simp [fuzzyStripLoop] at h1
    | 2 => intro h1 _; simp [fuzzyStripLoop] at h1
    | j + 3 =>
      intro h1 h2
      unfold fuzzyStripLoop at h1
      dsimp only [] at h1
      split at h1
      · injection h1 with h3; exact getPriceFromItem_source (h3.trans h2)
      · exact ih (j + 2) (by omega) h1 h2

/-- a successful `findCatalogPrice` always tags the source `Catalog (…`. -/
theorem findCatalogPrice_source {raw : String} {catalog : Catalog} {tid : String}
    {strict : Bool} {m : PriceMatch}
    (h : findCatalogPrice raw catalog tid strict = some m) :
    ∃ t, m.source = "Catalog (" ++ t := by
  unfold findCatalogPrice at h
  dsimp only [] at h
  split at h
  · exact absurd h (by simp)
  · split at h
    · exact getPriceFromItem_source h
    · split at h
      · exact getPriceFromItem_source h
      · split at h
        · exact getPriceFromItem_source h
        · split at h
          · exact absurd h (by simp)
          · split at h
            · split at h
              · exact neighborLoop_source ‹_› h
              · split at h
                · exact fuzzyStripLoop_source _ ‹_› h
                · split at h
                  · split at h
                    · exact getPriceFromItem_source h
                    · exact absurd h (by simp)
                  · exact absurd h (by simp)
            · split at h
              · exact fuzzyStripLoop_source _ ‹_› h
              · split at h
                · split at h
                  · exact getPriceFromItem_source h
                  · exact absurd h (by simp)
                · exact absurd h (by simp)

/-- keys probed in passes 2/3 are tagged `Catalog (…` as well. -/
theorem tryKeysWith_source {catalog : Catalog} {tid : String} {tag : String → String}
    {keys : List String} {m : PriceMatch}
    (htag : ∀ k, ∃ t, tag k = "Catalog (" ++ t)
    (h : tryKeysWith catalog tid tag keys = some m) :
    ∃ t, m.source = "Catalog (" ++ t := by
  unfold tryKeysWith at h
  obtain ⟨k, -, hk⟩ := List.exists_of_findSome?_eq_some h
  cases hf : findCatalogPrice k catalog tid true with
  | none => rw [hf] at hk; simp at hk
  | some m0 =>
    rw [hf] at hk
    simp only [Option.map_some'] at hk
    have hk2 := Option.some.inj hk
    obtain ⟨t, ht⟩ := htag k
    refine ⟨t, ?_⟩
    rw [← hk2]
    exact ht

/-- every match produced by the five passes carries a `Catalog (…` source. -/
theorem resolveMatch_source {catalog : Catalog} {tid : String} {item : CabinetItem}
    {m : PriceMatch} (h : resolveMatch catalog tid item = some m) :
    ∃ t, m.source = "Catalog (" ++ t := by
  unfold resolveMatch at h
  dsimp only [] at h
  split at h
  next m1 heq =>
    injection h with h2
    exact findCatalogPrice_source (h2 ▸ heq)
  next =>
    split at h
    next m1 heq =>
      injection h with h2
      refine tryKeysWith_source (fun k =>
        ⟨"Exact Match '" ++ (k ++ "')"), by
        rw [exactTag, show ("Catalog (Exact Match '" : String) = "Catalog (" ++ "Exact Match '" from rfl]
        exact String.append_assoc _ _ _⟩) (h2 ▸ heq)
    next =>
      split at h
      next m1 heq =>
        injection h with h2
        refine tryKeysWith_source (fun k =>
          ⟨"Similar Match '" ++ (k ++ "')"), by
        rw [similarTag, show ("Catalog (Similar Match '" : String) = "Catalog (" ++ "Similar Match '" from rfl]
        exact String.append_assoc _ _ _⟩) (h2 ▸ heq)
      next =>
        split at h
        next m1 heq =>
          injection h with h2
          exact findCatalogPrice_source (h2 ▸ heq)
        next =>
          split at h
          · split at h
            · exact getPriceFromItem_source h
            · exact absurd h (by simp)
          · exact absurd h (by simp)

/-- a `Catalog (…` source is neither `NOT FOUND` nor `Extracted from PDF`. -/
theorem catalog_source_ne (t : String) :
    ("Catalog (" ++ t) ≠ "NOT FOUND" ∧ ("Catalog (" ++ t) ≠ "Extracted from PDF" := by
  constructor <;> intro h <;>
    · have h2 := congrArg (fun s : String => s.data.head?) h
      simp only [String.data_append] at h2
      rw [List.head?_append_of_ne_nil _ (by decide)] at h2
      exact absurd h2 (by decide)

/-- **C8, amended.**  The emitted `normalizedCode` is the matcher's
`matchedSku`; whenever the source is `NOT FOUND` or `Extracted from PDF`
(no catalog match), it is the unmodified `originalCode`. -/
theorem C8_amended :
    ∀ (items : List CabinetItem) (mfg : Manufacturer) (tid : String)
      (specs : Option ProjectSpecs) (fin : Option ProjectFinancials)
      (rooms : List (String × ProjectSpecs)) (r : PricingLineItem),
      r ∈ calculateProjectPricing items mfg tid specs fin rooms →
      (r.source = "NOT FOUND" ∨ r.source = "Extracted from PDF") →
      r.normalizedCode = r.originalCode := by
  intro items mfg tid specs fin rooms r hr hs
  obtain ⟨item, -, -, rfl⟩ := mem_calc.mp hr
  have hs2 : sourceOf mfg (globalTierNameOf mfg tid specs)
      (getOptionsForSpecs mfg.options specs) specs rooms item = "NOT FOUND" ∨
      sourceOf mfg (globalTierNameOf mfg tid specs)
        (getOptionsForSpecs mfg.options specs) specs rooms item = "Extracted from PDF" := hs
  show matchedSkuOf mfg (globalTierNameOf mfg tid specs)
    (getOptionsForSpecs mfg.options specs) specs rooms item = item.originalCode
  unfold matchedSkuOf
  cases hm : matchOf mfg (globalTierNameOf mfg tid specs)
      (getOptionsForSpecs mfg.options specs) specs rooms item with
  | none => rfl
  | some pm =>
    exfalso
    have hm2 : resolveMatch mfg.catalog
        (effTierOf mfg (globalTierNameOf mfg tid specs)
          (getOptionsForSpecs mfg.options specs) specs rooms item) item = some pm := by
      rw [← hm]; rfl
    obtain ⟨t, ht⟩ := resolveMatch_source hm2
    have hsv : sourceOf mfg (globalTierNameOf mfg tid specs)
        (getOptionsForSpecs mfg.options specs) specs rooms item = pm.source := by
      unfold sourceOf
      rw [hm]
    rw [hsv, ht] at hs2
    rcases hs2 with h | h
    · exact (catalog_source_ne t).1 h
    · exact (catalog_source_ne t).2 h

/-- Witness for C8 (amended): the unmatched item `SB 33`, once priced, carries
its original code as `normalizedCode`. -/
theorem C8_amended_witness :
    c8Line.normalizedCode = c8Line.originalCode :=
  C8_amended [c8Item] emptyMfg "standard" none none [] c8Line
    (by with_unfolding_all decide)
    (Or.inl (by with_unfolding_all decide))

/-- **C10, confirmed.**  The percentage phase is a function of the active
option list and the resolved base price alone — no cabinet-type applicability
rule is consulted — and its log contains every `percentage` option except
exactly those with a name over 50 characters and a zero computed surcharge
(`percLog`).  Concretely, a `percentage` option named `Wall Shimmer` applies
to a `Base` item (surcharge 30 on base 200), while the same option with
`pricingType = fixed` is blocked by the `wall`-name rule. -/
theorem C10_percentage_bypass :
    (∀ (opts : List MfgOption) (base : Rat) (acc : Rat × List AppliedOpt),
      percPhase opts base acc =
        (acc.1 + ((opts.filter (fun o => o.pricingType == "percentage")).map
            (fun o => base * pctOf o)).sum,
         acc.2 ++ percLog opts base)) ∧
    (calculateProjectPricing [c10Item] c10PctMfg "standard" (some c10Specs) none []).map
      (fun r => (r.optionsPrice, r.appliedOptions)) =
      [(30, [⟨"Wall Shimmer (15%)", 30, some "D-Finish"⟩])] ∧
    (calculateProjectPricing [c10Item] c10FixMfg "standard" (some c10Specs) none []).map
      (fun r => (r.optionsPrice, r.appliedOptions)) = [(0, [])] := by
  refine ⟨percPhase_spec, ?_, ?_⟩
  · with_unfolding_all decide
  · with_unfolding_all decide

/-! ## Identity of the normalizer on plain alphabetic codes (C1, amended) -/

theorem upAlpha_bounds {c : Char} (h : isUpAlpha c = true) :
    65 ≤ c.toNat ∧ c.toNat ≤ 90 := by
  simpa [isUpAlpha] using h

theorem isDig_false_of_upAlpha {c : Char} (h : isUpAlpha c = true) :
    isDig c = false := by
  obtain ⟨h1, h2⟩ := upAlpha_bounds h
  have hn : ¬ c.toNat ≤ 57 := by omega
  simp [isDig, hn]

theorem isWsC_false_of_upAlpha {c : Char} (h : isUpAlpha c = true) :
    isWsC c = false := by
  obtain ⟨h1, h2⟩ := upAlpha_bounds h
  have hs : c ≠ ' ' := fun he => absurd (he ▸ h1) (by decide)
  have ht : c ≠ '\t' := fun he => absurd (he ▸ h1) (by decide)
  have hn : c ≠ '\n' := fun he => absurd (he ▸ h1) (by decide)
  have hr : c ≠ '\r' := fun he => absurd (he ▸ h1) (by decide)
  simp [isWsC, hs, ht, hn, hr]

theorem dropWhile_self_of_false {p : Char → Bool} :
    ∀ l : List Char, (∀ c ∈ l, p c = false) → l.dropWhile p = l := by
  intro l h
  cases l with
  | nil => rfl
  | cons c rest => simp [List.dropWhile_cons, h c (List.mem_cons_self c rest)]

theorem takeWhile_nil_of_false {p : Char → Bool} :
    ∀ l : List Char, (∀ c ∈ l, p c = false) → l.takeWhile p = [] := by
  intro l h
  cases l with
  | nil => rfl
  | cons c rest => simp [List.takeWhile_cons, h c (List.mem_cons_self c rest)]

theorem dropWhile_nil_of_true {p : Char → Bool} :
    ∀ l : List Char, (∀ c ∈ l, p c = true) → l.dropWhile p = [] := by
  intro l
  induction l with
  | nil => intro _; rfl
  | cons c rest ih =>
    intro h
    simp [List.dropWhile_cons, h c (List.mem_cons_self c rest),
      ih (fun x hx => h x (List.mem_cons_of_mem c hx))]

theorem trimL_id {l : List Char} (h : ∀ c ∈ l, isWsC c = false) :
    trimL l = l := by
  unfold trimL
  rw [dropWhile_self_of_false l h,
    dropWhile_self_of_false l.reverse (fun c hc => h c (List.mem_reverse.mp hc)),
    List.reverse_reverse]

theorem toUpper_eq_self {c : Char} (h : isUpAlpha c = true) : c.toUpper = c := by
  obtain ⟨h1, h2⟩ := upAlpha_bounds h
  simp only [Char.toUpper]
  rw [if_neg (by omega)]

theorem upL_id : ∀ l : List Char, (∀ c ∈ l, isUpAlpha c = true) → upL l = l := by
  intro l
  induction l with
  | nil => intro _; rfl
  | cons c rest ih =>
    intro h
    show c.toUpper :: upL rest = c :: rest
    rw [toUpper_eq_self (h c (List.mem_cons_self c rest)),
      ih (fun x hx => h x (List.mem_cons_of_mem c hx))]

theorem fixSymbols_id :
    ∀ l : List Char, (∀ c ∈ l, isUpAlpha c = true) → fixSymbols l = l := by
  intro l
  induction l with
  | nil => intro _; rfl
  | cons c rest ih =>
    intro h
    obtain ⟨h1, h2⟩ := upAlpha_bounds (h c (List.mem_cons_self c rest))
    have hd : c ≠ '$' := fun he => absurd (he ▸ h1) (by decide)
    have he : c ≠ '€' := fun he => absurd (he ▸ h2) (by decide)
    have ha : c ≠ '@' := fun he => absurd (he ▸ h1) (by decide)
    show (if c = '$' then 'B' else if c = '€' then 'E' else if c = '@' then '0' else c)
      :: fixSymbols rest = c :: rest
    rw [if_neg hd, if_neg he, if_neg ha,
      ih (fun x hx => h x (List.mem_cons_of_mem c hx))]

theorem collapseWsGo_id :
    ∀ l : List Char, (∀ c ∈ l, isWsC c = false) → collapseWsGo false l = l := by
  intro l
  induction l with
  | nil => intro _; rfl
  | cons c rest ih =>
    intro h
    show (if isWsC c then _ else c :: collapseWsGo false rest) = c :: rest
    rw [h c (List.mem_cons_self c rest)]
    show c :: collapseWsGo false rest = c :: rest
    rw [ih (fun x hx => h x (List.mem_cons_of_mem c hx))]

theorem collapseWs_id {l : List Char} (h : ∀ c ∈ l, isWsC c = false) :
    collapseWs l = l := by
  unfold collapseWs
  rw [collapseWsGo_id l h, trimL_id h]

theorem deSpaceLDGo_id :
    ∀ (l : List Char) (fuel : Nat), (∀ c ∈ l, isWsC c = false) →
      deSpaceLDGo (fuel + 1) l = l := by
  intro l
  induction l with
  | nil => intro fuel _; rfl
  | cons c rest ih =>
    intro fuel h
    have hr : ∀ x ∈ rest, isWsC x = false :=
      fun x hx => h x (List.mem_cons_of_mem c hx)
    have htw : rest.takeWhile isWsC = [] := takeWhile_nil_of_false rest hr
    have hdw : rest.dropWhile isWsC = rest := dropWhile_self_of_false rest hr
    have hrec : deSpaceLDGo fuel rest = rest := by
      cases fuel with
      | zero => rfl
      | succ f => exact ih f hr
    show (if isUpAlpha c then _ else c :: deSpaceLDGo fuel rest) = c :: rest
    by_cases hu : isUpAlpha c = true
    · rw [if_pos hu]
      dsimp only []
      rw [htw, hdw]
      cases rest with
      | nil => rw [hrec]
      | cons d r2 =>
        show (if (decide (([] : List Char) ≠ []) && isDig d) = true
            then c :: deSpaceLDGo fuel (d :: r2)
            else c :: deSpaceLDGo fuel (d :: r2)) = c :: d :: r2
        rw [if_neg (by simp), hrec]
    · rw [if_neg (by simpa using hu), hrec]

theorem deSpaceLD_id {l : List Char} (h : ∀ c ∈ l, isWsC c = false) :
    deSpaceLD l = l := deSpaceLDGo_id l l.length h

theorem fix10Pat_id {l : List Char} (h : ∀ c ∈ l, isUpAlpha c = true) :
    fix10Pat l = l := by
  have hdrop : l.dropWhile isUpAlpha = [] := dropWhile_nil_of_true l h
  unfold fix10Pat
  rw [hdrop]
  dsimp only []
  cases List.takeWhile isUpAlpha l <;> rfl

theorem fix0Pat_id {l : List Char} (h : ∀ c ∈ l, isUpAlpha c = true) :
    fix0Pat l = l := by
  have hdrop : l.dropWhile isUpAlpha = [] := dropWhile_nil_of_true l h
  unfold fix0Pat
  rw [hdrop]
  dsimp only []
  cases List.takeWhile isUpAlpha l <;> rfl

theorem endsL_false_of_bad {l s : List Char} {c : Char} (hc : c ∈ s)
    (hA : ∀ x ∈ l, isUpAlpha x = true) (hcF : isUpAlpha c = false) :
    endsL l s = false := by
  unfold endsL
  cases hsuf : s.isSuffixOf l with
  | false => rfl
  | true =>
    exfalso
    have hsf : s <:+ l := by
      rw [← List.isSuffixOf_iff_suffix]
      exact hsuf
    have hm : c ∈ l := hsf.sublist.subset hc
    rw [hA c hm] at hcF
    exact Bool.noConfusion hcF

theorem strip2B_id {l : List Char} (h : ∀ x ∈ l, isUpAlpha x = true) :
    strip2B l = l := by
  unfold strip2B
  rw [endsL_false_of_bad (s := ['-', '2', 'B']) (c := '2') (by simp) h (by decide),
    endsL_false_of_bad (s := ['2', 'B']) (c := '2') (by simp) h (by decide)]
  simp

theorem stripParenLR_id {l : List Char} (h : ∀ x ∈ l, isUpAlpha x = true) :
    stripParenLR l = l := by
  unfold stripParenLR
  rw [endsL_false_of_bad (s := ['(', 'L', ')']) (c := '(') (by simp) h (by decide),
    endsL_false_of_bad (s := ['(', 'R', ')']) (c := '(') (by simp) h (by decide)]
  simp

theorem xdpMatch_none {l : List Char} (h : ∀ c ∈ l, isUpAlpha c = true) :
    xdpMatch l = none := by
  unfold xdpMatch
  rw [dropWhile_self_of_false l (fun c hc => isWsC_false_of_upAlpha (h c hc))]
  split
  · next _ r1 =>
    have hr1 : ∀ c ∈ r1, isUpAlpha c = true :=
      fun c hc => h c (List.mem_cons_of_mem 'X' hc)
    rw [dropWhile_self_of_false r1 (fun c hc => isWsC_false_of_upAlpha (hr1 c hc))]
    dsimp only []
    rw [takeWhile_nil_of_false r1 (fun c hc => isDig_false_of_upAlpha (hr1 c hc)),
      if_pos rfl]
  · rfl

theorem removeXDpGo_id :
    ∀ (l : List Char) (fuel : Nat), (∀ c ∈ l, isUpAlpha c = true) →
      removeXDpGo (fuel + 1) l = l := by
  intro l
  induction l with
  | nil => intro fuel _; rfl
  | cons c rest ih =>
    intro fuel h
    have hr : ∀ x ∈ rest, isUpAlpha x = true :=
      fun x hx => h x (List.mem_cons_of_mem c hx)
    have hrec : removeXDpGo fuel rest = rest := by
      cases fuel with
      | zero => rfl
      | succ f => exact ih f hr
    show (match xdpMatch (c :: rest) with
      | some r => removeXDpGo fuel r
      | none => c :: removeXDpGo fuel rest) = c :: rest
    rw [xdpMatch_none h, hrec]

theorem removeXDp_id {l : List Char} (h : ∀ c ∈ l, isUpAlpha c = true) :
    removeXDp l = l := removeXDpGo_id l l.length h

theorem removeTdGo_id :
    ∀ l : List Char, (∀ c ∈ l, isUpAlpha c = true) →
      (¬ (['T', 'D'] : List Char) <:+: l) → ∀ buf, removeTdGo buf l = buf ++ l := by
  intro l
  induction l with
  | nil => intro _ _ buf; simp [removeTdGo]
  | cons c rest ih =>
    intro hA hTD buf
    have hrA : ∀ x ∈ rest, isUpAlpha x = true :=
      fun x hx => hA x (List.mem_cons_of_mem c hx)
    have hrTD : ¬ (['T', 'D'] : List Char) <:+: rest := by
      intro hinf
      exact hTD (hinf.trans (List.suffix_cons c rest).isInfix)
    rw [removeTdGo.eq_def]
    split
    · next rest2 heq =>
      exfalso
      apply hTD
      rw [show c :: rest = 'T' :: 'D' :: rest2 from heq]
      exact ⟨[], rest2, rfl⟩
    · next c3 rest3 hnm heq =>
      obtain ⟨rfl, rfl⟩ : c = c3 ∧ rest = rest3 := by
        injection heq with h1 h2; exact ⟨h1, h2⟩
      rw [isDig_false_of_upAlpha (hA c (List.mem_cons_self c rest))]
      simp only [Bool.false_eq_true, if_false]
      rw [ih hrA hrTD []]
      simp
    · next heq =>
      exact absurd heq (by simp)

theorem removeTd_id {l : List Char} (hA : ∀ c ∈ l, isUpAlpha c = true)
    (hTD : containsL l ['T', 'D'] = false) : removeTd l = l := by
  have hTD2 : ¬ (['T', 'D'] : List Char) <:+: l := by simpa [containsL] using hTD
  unfold removeTd
  rw [removeTdGo_id l hA hTD2 []]
  rfl

theorem removeRot_id :
    ∀ l : List Char, (¬ (['R', 'O', 'T'] : List Char) <:+: l) → removeRot l = l := by
  intro l
  induction l with
  | nil => intro _; rfl
  | cons c rest ih =>
    intro hR
    have hrR : ¬ (['R', 'O', 'T'] : List Char) <:+: rest := by
      intro hinf
      exact hR (hinf.trans (List.suffix_cons c rest).isInfix)
    rw [removeRot.eq_def]
    split
    · next rest2 heq =>
      exfalso
      apply hR
      rw [show c :: rest = 'R' :: 'O' :: 'T' :: rest2 from heq]
      exact ⟨[], rest2, rfl⟩
    · next c3 rest3 hnm heq =>
      obtain ⟨rfl, rfl⟩ : c = c3 ∧ rest = rest3 := by
        injection heq with h1 h2; exact ⟨h1, h2⟩
      rw [ih hrR]
    · next heq =>
      exact absurd heq (by simp)

theorem rmDots1_id :
    ∀ l : List Char, (∀ c ∈ l, isUpAlpha c = true) → ∀ prev, rmDots1 prev l = l := by
  intro l
  induction l with
  | nil => intro _ prev; rfl
  | cons c rest ih =>
    intro h prev
    have hc : c ≠ '.' := fun he => by
      have h2 := h c (List.mem_cons_self c rest)
      rw [he] at h2
      exact absurd h2 (by decide)
    show (if (c = '.' && _) = true then _ else c :: rmDots1 (some c) rest) = c :: rest
    rw [if_neg (by simp [hc])]
    rw [ih (fun x hx => h x (List.mem_cons_of_mem c hx)) (some c)]

theorem rmDots2_id :
    ∀ l : List Char, (∀ c ∈ l, isUpAlpha c = true) → rmDots2 l = l := by
  intro l
  induction l with
  | nil => intro _; rfl
  | cons c rest ih =>
    intro h
    rw [rmDots2.eq_def]
    split
    · next heq =>
      exact absurd heq (by simp)
    · next rest2 heq =>
      exfalso
      have hmem := h c (List.mem_cons_self c rest)
      have hc : c = '.' := by
        have h2 := congrArg (fun l => l.head?) heq
        simpa using h2
      rw [hc] at hmem
      exact absurd hmem (by decide)
    · next c3 rest3 hnm heq =>
      obtain ⟨rfl, rfl⟩ : c = c3 ∧ rest = rest3 := by
        injection heq with h1 h2; exact ⟨h1, h2⟩
      rw [ih (fun x hx => h x (List.mem_cons_of_mem c hx))]

theorem stripCTGo_id (a b : Char) :
    ∀ (l : List Char) (fuel : Nat), (∀ c ∈ l, isUpAlpha c = true) →
      stripCTGo a b (fuel + 1) l = l := by
  intro l
  induction l with
  | nil => intro fuel _; rfl
  | cons c rest ih =>
    intro fuel h
    have hrec : stripCTGo a b fuel rest = rest := by
      cases fuel with
      | zero => rfl
      | succ f => exact ih f (fun x hx => h x (List.mem_cons_of_mem c hx))
    show (if isDig c = true then _ else c :: stripCTGo a b fuel rest) = c :: rest
    rw [if_neg (by simp [isDig_false_of_upAlpha (h c (List.mem_cons_self c rest))]), hrec]

theorem stripCT_id (a b : Char) {l : List Char}
    (h : ∀ c ∈ l, isUpAlpha c = true) : stripCT a b l = l :=
  stripCTGo_id a b l l.length h

theorem stripHD_id {l : List Char} (hHD : endsL l ['H', 'D'] = false) :
    stripHD l = l := by
  unfold stripHD
  rw [hHD]
  simp

theorem fixDHW_id {l : List Char} (h : startsL l ['D', 'H', 'W'] = false) :
    fixDHW l = l := by
  unfold fixDHW
  split
  · next rest =>
    exact absurd h (by simp [startsL, List.isPrefixOf])
  · rfl

theorem stripDirLR_id {l : List Char} (h : ∀ c ∈ l, isUpAlpha c = true) :
    stripDirLR l = l := by
  have hrev : ∀ c ∈ l.reverse, isUpAlpha c = true :=
    fun c hc => h c (List.mem_reverse.mp hc)
  unfold stripDirLR
  have h1 : (match l.reverse with
      | x :: d :: _ => (x = 'L' || x = 'R') && isDig d
      | _ => false) = false := by
    split
    · next x d tl heq =>
      have hd : isDig d = false :=
        isDig_false_of_upAlpha (hrev d (by rw [heq]; simp))
      rw [hd, Bool.and_false]
    · rfl
  have h2 : (match l.reverse with
      | x :: '-' :: d :: _ => (x = 'L' || x = 'R') && isDig d
      | _ => false) = false := by
    split
    · next x d tl heq =>
      have hd : isDig d = false :=
        isDig_false_of_upAlpha (hrev d (by rw [heq]; simp))
      rw [hd, Bool.and_false]
    · rfl
  rw [h1, h2]
  simp

theorem stripLH_id {l : List Char} (hA : ∀ x ∈ l, isUpAlpha x = true)
    (hLH : endsL l ['L', 'H'] = false) : stripLH l = l := by
  unfold stripLH
  rw [endsL_false_of_bad (s := ['-', 'L', 'H']) (c := '-') (by simp) hA (by decide), hLH]
  simp

theorem stripRH_id {l : List Char} (hA : ∀ x ∈ l, isUpAlpha x = true)
    (hRH : endsL l ['R', 'H'] = false) : stripRH l = l := by
  unfold stripRH
  rw [endsL_false_of_bad (s := ['-', 'R', 'H']) (c := '-') (by simp) hA (by decide), hRH]
  simp

theorem stripFELR_id {l : List Char} (hA : ∀ x ∈ l, isUpAlpha x = true)
    (hFE : endsL l ['F', 'E'] = false) (hFEL : endsL l ['F', 'E', 'L'] = false)
    (hFER : endsL l ['F', 'E', 'R'] = false) : stripFELR l = l := by
  unfold stripFELR
  rw [endsL_false_of_bad (s := ['-', 'F', 'E', 'L']) (c := '-') (by simp) hA (by decide),
    endsL_false_of_bad (s := ['-', 'F', 'E', 'R']) (c := '-') (by simp) hA (by decide),
    endsL_false_of_bad (s := ['-', 'F', 'E']) (c := '-') (by simp) hA (by decide),
    hFE, hFEL, hFER]
  simp

theorem stripFE2_id {l : List Char} (hA : ∀ x ∈ l, isUpAlpha x = true)
    (hFE : endsL l ['F', 'E'] = false) : stripFE2 l = l := by
  unfold stripFE2
  rw [endsL_false_of_bad (s := ['-', 'F', 'E']) (c := '-') (by simp) hA (by decide), hFE]
  simp

theorem normalizeCodeL_id {l : List Char}
    (hA : ∀ c ∈ l, isUpAlpha c = true)
    (hTD : containsL l ['T', 'D'] = false)
    (hROT : containsL l ['R', 'O', 'T'] = false)
    (hDHW : startsL l ['D', 'H', 'W'] = false)
    (hHD : endsL l ['H', 'D'] = false)
    (hLH : endsL l ['L', 'H'] = false)
    (hRH : endsL l ['R', 'H'] = false)
    (hFE : endsL l ['F', 'E'] = false)
    (hFEL : endsL l ['F', 'E', 'L'] = false)
    (hFER : endsL l ['F', 'E', 'R'] = false) :
    normalizeCodeL l = l := by
  have hWs : ∀ c ∈ l, isWsC c = false := fun c hc => isWsC_false_of_upAlpha (hA c hc)
  have hROT2 : ¬ (['R', 'O', 'T'] : List Char) <:+: l := by simpa [containsL] using hROT
  by_cases hnil : l = []
  · subst hnil; rfl
  · unfold normalizeCodeL
    rw [if_neg hnil]
    dsimp only []
    rw [upL_id l hA, trimL_id hWs, fixSymbols_id l hA, collapseWs_id hWs,
      deSpaceLD_id hWs, fix10Pat_id hA, fix0Pat_id hA, strip2B_id hA,
      stripParenLR_id hA, removeXDp_id hA, removeTd_id hA hTD,
      removeRot_id l hROT2, rmDots1_id l hA none, rmDots2_id l hA,
      stripCT_id 'A' 'H' hA, stripCT_id 'V' 'H' hA, stripCT_id 'P' 'H' hA,
      stripHD_id hHD, fixDHW_id hDHW, stripDirLR_id hA,
      stripLH_id hA hLH, stripRH_id hA hRH,
      stripFELR_id hA hFE hFEL hFER, stripFE2_id hA hFE]

/-- **C1, amended.**  `normalizeNKBACode` is not idempotent in general
(`C1_counterexample`), but on purely alphabetic codes that trigger none of
its letter-only patterns (`plainAlphaCode`) one pass is already the
identity, so a second pass changes nothing. -/
theorem C1_amended (s : String) (h : plainAlphaCode s.data = true) :
    normalizeNKBACode s = s ∧
    normalizeNKBACode (normalizeNKBACode s) = normalizeNKBACode s := by
  have h2 := h
  simp only [plainAlphaCode, Bool.and_eq_true, Bool.not_eq_true', List.all_eq_true] at h2
  obtain ⟨⟨⟨⟨⟨⟨⟨⟨⟨hA, hTD⟩, hROT⟩, hDHW⟩, hHD⟩, hLH⟩, hRH⟩, hFE⟩, hFEL⟩, hFER⟩ := h2
  have hA2 : ∀ c ∈ s.data, isUpAlpha c = true := fun c hc => hA c hc
  have hid : normalizeNKBACode s = s := by
    show (⟨normalizeCodeL s.data⟩ : String) = s
    rw [normalizeCodeL_id hA2 hTD hROT hDHW hHD hLH hRH hFE hFEL hFER]
  exact ⟨hid, by rw [hid]; exact hid⟩

/-- Witness for C1 (amended): `FILLER` is a plain alphabetic code, and the
normalizer is idempotent on it. -/
theorem C1_amended_witness :
    plainAlphaCode "FILLER".data = true ∧
    normalizeNKBACode (normalizeNKBACode "FILLER") = normalizeNKBACode "FILLER" :=
  ⟨by decide, (C1_amended "FILLER" (by decide)).2⟩

end KabsPricing
